import Mathlib

/-!
Verification development for the Splunk-autodoc configuration pipeline
(`api/app/services/parser.py`, `resolver.py`, `validator.py`).

The Python services are shallowly embedded as executable Lean definitions:
file contents are modelled as their parsed stanza lists (the configparser
I/O layer is outside the embedding), Python dicts become association lists
that preserve insertion order and update in place, Python sets become lists
used only through membership, and `Optional[str]` becomes `Option String`
with Python truthiness modelled explicitly (a `None` and an empty string
are both falsy).
-/

namespace Autodoc

/-! ### Small Python-semantics helpers -/

/-- Membership test on an association list; models Python `dict.get(k)`. -/
def getKV : List (String × String) → String → Option String
  | [], _ => none
  | (k', v') :: rest, k => if k' = k then some v' else getKV rest k

/-- Models Python `d[k] = v` on an ordered dict: update in place or append. -/
def setKV : List (String × String) → String → String → List (String × String)
  | [], k, v => [(k, v)]
  | (k', v') :: rest, k, v =>
    if k' = k then (k', v) :: rest else (k', v') :: setKV rest k v

/-- Python truthiness of an `Optional[str]`: `None` and `""` are falsy. -/
def optTruthy : Option String → Bool
  | none => false
  | some s => s ≠ ""

/-- Infix test on character lists (used to model `re.search` below). -/
def hasInfix : List Char → List Char → Bool
  | l, p =>
    match l with
    | [] => p.isEmpty
    | _ :: t => p.isPrefixOf l || hasInfix t p

/-- Models `re.search(pat, s)` for a literal (regex-free) pattern `pat`. -/
def strContains (s pat : String) : Bool :=
  hasInfix s.data pat.data

/-- Code-point lower-casing, the `str.lower()` of the ASCII data at hand
(kernel-reducible, unlike the byte-position `String.toLower`). -/
def strLower (s : String) : String := String.mk (s.data.map Char.toLower)

/-- Code-point prefix test (`str.startswith`). -/
def strStartsWith (s pre : String) : Bool := pre.data.isPrefixOf s.data

/-- Code-point suffix test (`str.endswith`). -/
def strEndsWith (s suf : String) : Bool := suf.data.isSuffixOf s.data

/-- Code-point length (Python `len`). -/
def strLen (s : String) : Nat := s.data.length

/-- Code-point drop (Python slicing `s[n:]`). -/
def strDrop (s : String) (n : Nat) : String := String.mk (s.data.drop n)

/-- Code-point right drop (Python slicing `s[:-n]`). -/
def strDropRight (s : String) (n : Nat) : String :=
  String.mk (s.data.take (s.data.length - n))

/-- Python `str.strip()`: whitespace removed from both ends. -/
def strTrim (s : String) : String :=
  String.mk ((s.data.dropWhile Char.isWhitespace).reverse.dropWhile
    Char.isWhitespace).reverse

/-- Worker for single-character splitting. -/
def splitCharAux (c : Char) : List Char → List Char → List String
  | [], acc => [String.mk acc.reverse]
  | x :: xs, acc =>
    if x = c then String.mk acc.reverse :: splitCharAux c xs []
    else splitCharAux c xs (x :: acc)

/-- Python `s.split(c)` for a one-character separator (total split; an
empty string yields `[""]`, as in Python). -/
def splitChar (c : Char) (s : String) : List String := splitCharAux c s.data []

/-- A non-empty all-digit run parsed to a number (the `\d+` capture
combined with `int()`). -/
def digitsToNat? (l : List Char) : Option Nat :=
  if l ≠ [] ∧ l.all Char.isDigit then
    some (l.foldl (fun n c => n * 10 + (c.toNat - '0'.toNat)) 0)
  else none

/-- Digit-run parse of a string. -/
def strToNat? (s : String) : Option Nat := digitsToNat? s.data

/-- Python `int()` on an already-stripped string: an optional sign
followed by digits (numeric-literal frills like underscores aside). -/
def strToInt? (s : String) : Option Int :=
  match s.data with
  | '-' :: rest => (digitsToNat? rest).map (fun n => -(n : Int))
  | '+' :: rest => (digitsToNat? rest).map (fun n => (n : Int))
  | l => (digitsToNat? l).map (fun n => (n : Int))

/-- Lexicographic comparison of code-point lists (Python `<=` on str). -/
def lexLe : List Char → List Char → Bool
  | [], _ => true
  | _ :: _, [] => false
  | a :: as, b :: bs =>
    if a < b then true
    else if a = b then lexLe as bs
    else false

/-- Kernel-reducible lexicographic order on strings. -/
def strLe (a b : String) : Bool := lexLe a.data b.data

/-- Models the Python idiom `value.lower() in ("1", "true", "yes")`. -/
def pyBool (s : String) : Bool :=
  strLower s = "1" || strLower s = "true" || strLower s = "yes"

/-! ### parser.py — constants and redaction -/

/-- Sensitive keys to redact, `SENSITIVE_KEYS` in parser.py (lower-case). -/
def SENSITIVE_KEYS : List String :=
  ["pass4symmkey", "sslpassword", "password", "token", "secret"]

/-- Redaction sentinel used by `redact_sensitive_value`. -/
def REDACTED : String := "<REDACTED>"

/-- Embeds `redact_sensitive_value` from parser.py. -/
def redact_sensitive_value (key value : String) : String :=
  if SENSITIVE_KEYS.contains (strLower key) then REDACTED else value

/-! ### parser.py — configuration files and layer location

A `.conf` file is modelled by its parsed content: an ordered list of
sections, each an ordered list of key/value pairs (configparser rejects
duplicate sections, so section names are distinct in well-formed files;
the merge definitions below do not rely on that). -/

/-- Parsed content of one configuration file. -/
structure ConfFile where
  sections : List (String × List (String × String))
deriving DecidableEq, Repr

/-- One entry of the `find_conf_files` result: the tuple
`(file_path, layer_type, app_name)` plus the file's parsed content
(in the source the content is re-read from `file_path` during merging). -/
structure FoundConf where
  path : String
  layerType : String
  app : Option String
  file : ConfFile
deriving DecidableEq, Repr

/-- One `apps/<name>` directory, restricted to a single conf-file name:
whether `default/<conf>` and `local/<conf>` exist and their contents. -/
structure AppDir where
  name : String
  defaultConf : Option ConfFile
  localConf : Option ConfFile
deriving DecidableEq, Repr

/-- The extracted snapshot directory, restricted to one conf-file name.
`apps` is listed in traversal order (the source visits `sorted(iterdir())`;
theorems below quantify over arbitrary orders). -/
structure WorkDir where
  systemDefault : Option ConfFile
  systemLocal : Option ConfFile
  apps : List AppDir
deriving DecidableEq, Repr

/-- Optional file at a fixed path/layer, as a zero-or-one element list. -/
def optFound (path layerType : String) (app : Option String) :
    Option ConfFile → List FoundConf
  | none => []
  | some f => [{ path := path, layerType := layerType, app := app, file := f }]

/-- Embeds `find_conf_files` from parser.py: system/default, system/local,
then every app's `default`, then every app's `local`.  The source appends
(default, local) per app and then applies a stable sort on the four layer
ranks, which yields exactly this concatenation. -/
def find_conf_files (wd : WorkDir) (confName : String) : List FoundConf :=
  optFound ("system/default/" ++ confName) "system/default" none wd.systemDefault
    ++ optFound ("system/local/" ++ confName) "system/local" none wd.systemLocal
    ++ wd.apps.flatMap (fun a =>
        optFound ("apps/" ++ a.name ++ "/default/" ++ confName) "app/default"
          (some a.name) a.defaultConf)
    ++ wd.apps.flatMap (fun a =>
        optFound ("apps/" ++ a.name ++ "/local/" ++ confName) "app/local"
          (some a.name) a.localConf)

/-! ### parser.py — stanza merging -/

/-- Merged data of one stanza: the key/value dict plus the provenance
metadata keys (`_source_files`, `_source_apps`, `_source_file`,
`_source_app`) that `merge_conf_layers` stores alongside it. -/
structure StanzaData where
  kvs : List (String × String)
  source_files : List String
  source_apps : List (Option String)
  source_file : String
  source_app : Option String
deriving DecidableEq, Repr

/-- Fresh stanza entry, as created on first sight of a section. -/
def emptyStanza : StanzaData :=
  { kvs := [], source_files := [], source_apps := [], source_file := "",
    source_app := none }

/-- Merging one section's pairs of one file into existing stanza data:
every stored value passes through `redact_sensitive_value`, provenance is
accumulated, and the convenience source file/app are overwritten. -/
def mergeSection (fc : FoundConf) (pairs : List (String × String))
    (d : StanzaData) : StanzaData :=
  { kvs := pairs.foldl (fun acc kv => setKV acc kv.1 (redact_sensitive_value kv.1 kv.2)) d.kvs,
    source_files := d.source_files ++ [fc.path],
    source_apps := d.source_apps ++ [fc.app],
    source_file := fc.path,
    source_app := fc.app }

/-- Lookup of a stanza in the merged ordered dict. -/
def getStanza : List (String × StanzaData) → String → Option StanzaData
  | [], _ => none
  | (s', d) :: rest, s => if s' = s then some d else getStanza rest s

/-- Models `merged[section]` creation/update: apply `f` to the existing
entry or to a fresh one, preserving insertion order. -/
def setStanza : List (String × StanzaData) → String → (StanzaData → StanzaData) →
    List (String × StanzaData)
  | [], s, f => [(s, f emptyStanza)]
  | (s', d) :: rest, s, f =>
    if s' = s then (s', f d) :: rest else (s', d) :: setStanza rest s f

/-- Merging all sections of one file into the accumulated dict. -/
def mergeFileInto (m : List (String × StanzaData)) (fc : FoundConf) :
    List (String × StanzaData) :=
  fc.file.sections.foldl (fun acc sec => setStanza acc sec.1 (mergeSection fc sec.2)) m

/-- Embeds `merge_conf_layers` from parser.py: fold the files in precedence
order, later files overwriting same-named keys of earlier files. -/
def merge_conf_layers (files : List FoundConf) : List (String × StanzaData) :=
  files.foldl mergeFileInto []

/-! ### parser.py — transforms extractor -/

/-- Embeds the `TransformStanza` dataclass. -/
structure TransformStanza where
  stanza_name : String
  regex : Option String := none
  format : Option String := none
  dest_key : Option String := none
  source_key : Option String := none
  lookup_name : Option String := none
  filename : Option String := none
  is_drop : Bool := false
  is_index_routing : Bool := false
  is_sourcetype_rewrite : Bool := false
  is_host_rewrite : Bool := false
  options : List (String × String) := []
  source_file : String := ""
  source_app : Option String := none
  source_files : List String := []
  source_apps : List (Option String) := []
deriving DecidableEq, Repr

/-- Keys consumed by the transforms extractor (its exclusion set, with the
provenance keys held outside `kvs` in this embedding). -/
def transformsConsumedKeys : List String :=
  ["REGEX", "FORMAT", "DEST_KEY", "SOURCE_KEY", "lookup_name", "filename"]

/-- The `DEST_KEY`/`FORMAT` convenience-flag cascade of
`parse_transforms_conf`, as the tuple
`(is_drop, is_index_routing, is_sourcetype_rewrite, is_host_rewrite)`. -/
def transformFlags (dest_key format_str : Option String) :
    Bool × Bool × Bool × Bool :=
  match dest_key with
  | none => (false, false, false, false)
  | some dk =>
    if dk = "" then (false, false, false, false)
    else
      let dkl := strLower dk
      if (dkl = "queue" || dkl = "_tcp_routing")
          && optTruthy format_str
          && strLower (format_str.getD "") = "nullqueue" then
        (true, false, false, false)
      else if dkl = "_metadata:index" then (false, true, false, false)
      else if dkl = "_metadata:sourcetype" then (false, false, true, false)
      else if dkl = "_metadata:host" then (false, false, false, true)
      else (false, false, false, false)

/-- Builds one `TransformStanza` from a merged stanza, embedding the body of
the `parse_transforms_conf` loop including the `DEST_KEY`/`FORMAT`
convenience-flag cascade. -/
def mkTransform (stanzaName : String) (d : StanzaData) : TransformStanza :=
  let regex := getKV d.kvs "REGEX"
  let format_str := getKV d.kvs "FORMAT"
  let dest_key := getKV d.kvs "DEST_KEY"
  let source_key := getKV d.kvs "SOURCE_KEY"
  let lookup_name := getKV d.kvs "lookup_name"
  let filename := getKV d.kvs "filename"
  let flags := transformFlags dest_key format_str
  { stanza_name := stanzaName
    regex := regex
    format := format_str
    dest_key := dest_key
    source_key := source_key
    lookup_name := lookup_name
    filename := filename
    is_drop := flags.1
    is_index_routing := flags.2.1
    is_sourcetype_rewrite := flags.2.2.1
    is_host_rewrite := flags.2.2.2
    options := d.kvs.filter (fun kv => ¬ transformsConsumedKeys.contains kv.1)
    source_file := d.source_file
    source_app := d.source_app
    source_files := d.source_files
    source_apps := d.source_apps }

/-- Transform extraction over an already-merged stanza dict. -/
def transformsFromMerged (m : List (String × StanzaData)) : List TransformStanza :=
  m.map (fun sd => mkTransform sd.1 sd.2)

/-- Embeds `parse_transforms_conf` from parser.py. -/
def parse_transforms_conf (wd : WorkDir) : List TransformStanza :=
  transformsFromMerged (merge_conf_layers (find_conf_files wd "transforms.conf"))

/-! ### parser.py — inputs extractor -/

/-- Embeds the `InputStanza` dataclass. -/
structure InputStanza where
  stanza_name : String
  input_type : String
  source_path : Option String := none
  port : Option Nat := none
  sourcetype : Option String := none
  index : Option String := none
  host : Option String := none
  disabled : Bool := false
  options : List (String × String) := []
  source_file : String := ""
  source_app : Option String := none
  source_files : List String := []
  source_apps : List (Option String) := []
deriving DecidableEq, Repr

/-- Models the regex fragment `(?:[^:]*:)?(\d+)` applied to the remainder
of a `tcp://`, `udp://` or `splunktcp://` stanza name: an optional
colon-free host part followed by a non-empty digit run. -/
def hostPortTail (r : String) : Option Nat :=
  match splitChar ':' r with
  | [d] => strToNat? d
  | [_, d] => strToNat? d
  | _ => none

/-- Classification result: `(input_type, source_path, port)`. -/
def classifyInputName (name : String) : String × Option String × Option Nat :=
  if strStartsWith name "monitor://" && strLen name > 10 then
    ("monitor", some (strDrop name 10), none)
  else if strStartsWith name "tcp://" then
    match hostPortTail (strDrop name 6) with
    | some p => ("tcp", none, some p)
    | none => classifyInputRest name
  else classifyInputRest name
where
  /-- The remaining arms of the `parse_inputs_conf` pattern cascade. -/
  classifyInputRest (name : String) : String × Option String × Option Nat :=
    if strStartsWith name "udp://" then
      match hostPortTail (strDrop name 6) with
      | some p => ("udp", none, some p)
      | none => classifyInputTail name
    else classifyInputTail name
  /-- Tail of the cascade: splunktcp, http, script, WinEventLog, modular. -/
  classifyInputTail (name : String) : String × Option String × Option Nat :=
    if strStartsWith name "splunktcp://" then
      match hostPortTail (strDrop name 12) with
      | some p => ("splunktcp", none, some p)
      | none => classifyInputLast name
    else classifyInputLast name
  /-- Last arms: http, script, WinEventLog (case-insensitive), modular. -/
  classifyInputLast (name : String) : String × Option String × Option Nat :=
    if name = "http" then ("http", none, none)
    else if strStartsWith name "http://" && strLen name > 7 then
      ("http", some (strDrop name 7), none)
    else if strStartsWith name "script://" && strLen name > 9 then
      ("script", some (strDrop name 9), none)
    else if strStartsWith (strLower name) "wineventlog://" && strLen name > 14 then
      ("WinEventLog", some (strDrop name 14), none)
    else ("modular", none, none)

/-- Keys consumed by the inputs extractor. -/
def inputsConsumedKeys : List String :=
  ["sourcetype", "index", "host", "disabled"]

/-- Builds one `InputStanza` from a merged stanza. -/
def mkInput (stanzaName : String) (d : StanzaData) : InputStanza :=
  let cls := classifyInputName stanzaName
  { stanza_name := stanzaName
    input_type := cls.1
    source_path := cls.2.1
    port := cls.2.2
    sourcetype := getKV d.kvs "sourcetype"
    index := getKV d.kvs "index"
    host := getKV d.kvs "host"
    disabled := pyBool ((getKV d.kvs "disabled").getD "false")
    options := d.kvs.filter (fun kv => ¬ inputsConsumedKeys.contains kv.1)
    source_file := d.source_file
    source_app := d.source_app
    source_files := d.source_files
    source_apps := d.source_apps }

/-- Input extraction over an already-merged stanza dict. -/
def inputsFromMerged (m : List (String × StanzaData)) : List InputStanza :=
  m.map (fun sd => mkInput sd.1 sd.2)

/-- Embeds `parse_inputs_conf` from parser.py. -/
def parse_inputs_conf (wd : WorkDir) : List InputStanza :=
  inputsFromMerged (merge_conf_layers (find_conf_files wd "inputs.conf"))

/-! ### parser.py — props extractor -/

/-- Embeds the `PropsStanza` dataclass. -/
structure PropsStanza where
  stanza_name : String
  stanza_type : String
  stanza_value : String
  transforms : List String := []
  line_breaker : Option String := none
  time_format : Option String := none
  truncate : Option Int := none
  options : List (String × String) := []
  source_file : String := ""
  source_app : Option String := none
  source_files : List String := []
  source_apps : List (Option String) := []
deriving DecidableEq, Repr

/-- Models the `^TRANSFORMS-(.+)$` key test (case-insensitive). -/
def isTransformsKey (k : String) : Bool :=
  strStartsWith (strLower k) "transforms-" && strLen k > 11

/-- Classification of a props stanza name into `(stanza_type, stanza_value)`. -/
def classifyPropsName (name : String) : String × String :=
  if name = "default" then ("default", "default")
  else if strStartsWith name "sourcetype::" && strLen name > 12 then
    ("sourcetype", strDrop name 12)
  else if strStartsWith name "source::" && strLen name > 8 then
    ("source", strDrop name 8)
  else if strStartsWith name "host::" && strLen name > 6 then
    ("host", strDrop name 6)
  else ("sourcetype", name)

/-- Keys consumed by the props extractor (besides `TRANSFORMS-*`). -/
def propsConsumedKeys : List String :=
  ["LINE_BREAKER", "TIME_FORMAT", "TRUNCATE"]

/-- Models Python `int(s)` on an optional string, returning `none` when the
conversion raises (leading/trailing whitespace is accepted, as in Python). -/
def pyInt : Option String → Option Int
  | none => none
  | some s => strToInt? (strTrim s)

/-- Builds one `PropsStanza` from a merged stanza. -/
def mkProps (stanzaName : String) (d : StanzaData) : PropsStanza :=
  let cls := classifyPropsName stanzaName
  { stanza_name := stanzaName
    stanza_type := cls.1
    stanza_value := cls.2
    transforms := d.kvs.flatMap (fun kv =>
      if isTransformsKey kv.1 then
        ((splitChar ',' kv.2).map strTrim).filter (fun t => t ≠ "")
      else [])
    line_breaker := getKV d.kvs "LINE_BREAKER"
    time_format := getKV d.kvs "TIME_FORMAT"
    truncate := pyInt (getKV d.kvs "TRUNCATE")
    options := d.kvs.filter (fun kv =>
      ¬ propsConsumedKeys.contains kv.1 && ¬ isTransformsKey kv.1)
    source_file := d.source_file
    source_app := d.source_app
    source_files := d.source_files
    source_apps := d.source_apps }

/-- Props extraction over an already-merged stanza dict. -/
def propsFromMerged (m : List (String × StanzaData)) : List PropsStanza :=
  m.map (fun sd => mkProps sd.1 sd.2)

/-- Embeds `parse_props_conf` from parser.py. -/
def parse_props_conf (wd : WorkDir) : List PropsStanza :=
  propsFromMerged (merge_conf_layers (find_conf_files wd "props.conf"))

/-! ### parser.py — outputs extractor -/

/-- Typed rendering of the `indexer_discovery_details` dict attached to an
output group's residual options. -/
structure DiscoveryDetails where
  master_uri : Option String := none
  pass4SymmKey : Option String := none
  sslCertPath : Option String := none
  sslPassword : Option String := none
  sslVerifyServerCert : Option String := none
  source_file : String := ""
deriving DecidableEq, Repr

/-- Embeds the `OutputGroup` dataclass.  The dict-valued residual options
`indexer_discovery_details` and `per_server_options` are carried as typed
fields instead of entries of `options`. -/
structure OutputGroup where
  group_name : String
  servers : List String := []
  default_group : Bool := false
  ssl_enabled : Option Bool := none
  ssl_cert_path : Option String := none
  compressed : Option Bool := none
  use_ack : Option Bool := none
  indexer_discovery : Option String := none
  options : List (String × String) := []
  discovery_details : Option DiscoveryDetails := none
  per_server_options : List (String × List (String × String)) := []
  source_file : String := ""
  source_app : Option String := none
  source_files : List String := []
  source_apps : List (Option String) := []
deriving DecidableEq, Repr

/-- Models `d.get(a) if d.get(a) is not None else d.get(b)`. -/
def getKVOr (kvs : List (String × String)) (k1 k2 : String) : Option String :=
  match getKV kvs k1 with
  | some v => some v
  | none => getKV kvs k2

/-- Builds the `indexer_discovery_map` entry for one stanza. -/
def mkDiscovery (d : StanzaData) : DiscoveryDetails :=
  { master_uri := getKVOr d.kvs "master_uri" "masterUri"
    pass4SymmKey := getKVOr d.kvs "pass4SymmKey" "pass4symmkey"
    sslCertPath := getKVOr d.kvs "sslCertPath" "sslcertpath"
    sslPassword := getKVOr d.kvs "sslPassword" "sslpassword"
    sslVerifyServerCert := getKVOr d.kvs "sslVerifyServerCert" "sslverifyservercert"
    source_file := d.source_file }

/-- Keys consumed by the outputs extractor. -/
def outputsConsumedKeys : List String :=
  ["server", "sslCertPath", "clientCert", "sslRootCAPath", "useSSL",
   "compressed", "useACK", "indexerDiscovery"]

/-- Models `value.lower() in ("1","true","yes")` on an optional string. -/
def pyBoolOpt : Option String → Option Bool
  | none => none
  | some s => some (pyBool s)

/-- Builds one `OutputGroup` from a merged `tcpout:<name>` stanza, given the
default-group name from `[tcpout]` and the discovery map. -/
def mkOutputGroup (defaultGroupName : Option String)
    (discoveryMap : List (String × DiscoveryDetails))
    (groupName : String) (d : StanzaData) : OutputGroup :=
  let servers := ((splitChar ',' ((getKV d.kvs "server").getD "")).map strTrim)
    |>.filter (fun s => s ≠ "")
  let ssl_cert_path := getKV d.kvs "sslCertPath"
  let client_cert := getKV d.kvs "clientCert"
  let ssl_root_ca_path := getKV d.kvs "sslRootCAPath"
  let use_ssl_bool := pyBoolOpt (getKV d.kvs "useSSL")
  let ssl_verify_server_cert := getKV d.kvs "sslVerifyServerCert"
  let ssl_enabled : Option Bool :=
    if optTruthy ssl_cert_path || optTruthy client_cert || optTruthy ssl_root_ca_path then
      some true
    else if use_ssl_bool = some true then some true
    else if use_ssl_bool = some false then some false
    else none
  let indexer_discovery := getKV d.kvs "indexerDiscovery"
  let baseOptions := d.kvs.filter (fun kv => ¬ outputsConsumedKeys.contains kv.1)
  let options :=
    match ssl_verify_server_cert with
    | some v => setKV baseOptions "sslVerifyServerCert" v
    | none => baseOptions
  let discovery_details :=
    match indexer_discovery with
    | some nm => if nm ≠ "" then getDisc discoveryMap nm else none
    | none => none
  { group_name := groupName
    servers := servers
    default_group := defaultGroupName == some groupName
    ssl_enabled := ssl_enabled
    ssl_cert_path := ssl_cert_path
    compressed := pyBoolOpt (getKV d.kvs "compressed")
    use_ack := pyBoolOpt (getKV d.kvs "useACK")
    indexer_discovery := indexer_discovery
    options := options
    discovery_details := discovery_details
    per_server_options := []
    source_file := d.source_file
    source_app := d.source_app
    source_files := d.source_files
    source_apps := d.source_apps }
where
  /-- Lookup in the discovery map. -/
  getDisc : List (String × DiscoveryDetails) → String → Option DiscoveryDetails
    | [], _ => none
    | (n, dd) :: rest, nm => if n = nm then some dd else getDisc rest nm

/-- Extracts the remainder of a stanza name after a literal marker, for the
`^indexer_discovery:(.+)$`, `^tcpout:(.+)$` and `^tcpout-server://(.+)$`
patterns of `parse_outputs_conf`. -/
def matchAfter (marker name : String) : Option String :=
  if strStartsWith name marker && strLen name > strLen marker then
    some (strDrop name (strLen marker))
  else none

/-- Attaches per-server overrides from `tcpout-server://` stanzas to a
group's matching servers. -/
def attachServerOverrides (overrides : List (String × List (String × String)))
    (g : OutputGroup) : OutputGroup :=
  { g with per_server_options :=
      g.servers.filterMap (fun srv =>
        match lookupOv overrides srv with
        | some settings => some (srv, settings)
        | none => none) }
where
  /-- Lookup of one server endpoint in the override map. -/
  lookupOv : List (String × List (String × String)) → String →
      Option (List (String × String))
    | [], _ => none
    | (s, kv) :: rest, srv => if s = srv then some kv else lookupOv rest srv

/-- Output extraction over an already-merged stanza dict. -/
def outputsFromMerged (m : List (String × StanzaData)) : List OutputGroup :=
  let defaultGroupName := (getStanza m "tcpout").bind (fun d => getKV d.kvs "defaultGroup")
  let discoveryMap := m.filterMap (fun sd =>
    (matchAfter "indexer_discovery:" sd.1).map (fun nm => (nm, mkDiscovery sd.2)))
  let groups := m.filterMap (fun sd =>
    (matchAfter "tcpout:" sd.1).map (fun nm =>
      mkOutputGroup defaultGroupName discoveryMap nm sd.2))
  let serverOverrides := m.filterMap (fun sd =>
    (matchAfter "tcpout-server://" sd.1).map (fun srv => (srv, sd.2.kvs)))
  groups.map (attachServerOverrides serverOverrides)

/-- Embeds `parse_outputs_conf` from parser.py. -/
def parse_outputs_conf (wd : WorkDir) : List OutputGroup :=
  outputsFromMerged (merge_conf_layers (find_conf_files wd "outputs.conf"))

/-! ### parser.py — ParsedConfig -/

/-- The keys of `host_metadata` that the resolver reads, as typed fields
(the dict also carries counters that no claim touches). -/
structure HostMetadata where
  hostname : Option String := none
  jobIdStr : String := "unknown"
  apps : List String := []
  environment : Option String := none
  cluster : Option String := none
deriving DecidableEq, Repr

/-- Embeds the `ParsedConfig` dataclass (traceability reduced to the map
the resolver copies into graph metadata). -/
structure ParsedConfig where
  inputs : List InputStanza := []
  outputs : List OutputGroup := []
  props : List PropsStanza := []
  transforms : List TransformStanza := []
  host_metadata : HostMetadata := {}
  traceability : List (String × List String) := []
deriving DecidableEq, Repr

/-! ### resolver.py — hosts and edges -/

/-- Embeds the resolver's `Host` dataclass. -/
structure Host where
  id : String
  roles : List String := []
  labels : List String := []
  apps : List String := []
deriving DecidableEq, Repr

/-- Embeds the resolver's `Edge` dataclass (the `protocol`/`path_kind`
string literals of the Python `Literal` types stay plain strings). -/
structure Edge where
  src_host : String
  dst_host : String
  protocol : String
  path_kind : String
  sources : List String := []
  sourcetypes : List String := []
  indexes : List String := []
  filters : List String := []
  drop_rules : List String := []
  tls : Option Bool := none
  weight : Nat := 1
  app_contexts : List String := []
  confidence : String := "explicit"
deriving DecidableEq, Repr

/-- The `ROLE_PATTERNS` table from resolver.py (all patterns are literal,
so `re.search` is a substring test). -/
def ROLE_PATTERNS : List (String × List String) :=
  [("universal_forwarder", ["splunkforwarder", "uf_", "forwarder"]),
   ("heavy_forwarder", ["heavy", "hf_", "Splunk_TA_", "SA-"]),
   ("indexer", ["idx", "indexer", "cluster_master", "cluster_peer"]),
   ("search_head", ["search", "sh_", "deployer"])]

/-- The pattern-based fallback loop at the end of `infer_host_roles`:
skip roles already present and append at most one role (the Python loop
breaks after the first append). -/
def patternFallback (hostname : String) (appNames : List String) :
    List String → List (String × List String) → List String
  | roles, [] => roles
  | roles, (role, pats) :: rest =>
    if roles.contains role then patternFallback hostname appNames roles rest
    else if pats.any (fun p => strContains hostname p) then roles ++ [role]
    else if appNames.any (fun app => pats.any (fun p => strContains app p)) then
      roles ++ [role]
    else patternFallback hostname appNames roles rest

/-- Embeds `infer_host_roles` from resolver.py. -/
def infer_host_roles (parsed : ParsedConfig) : List String :=
  let has_outputs := ¬ parsed.outputs.isEmpty
  let has_props := ¬ parsed.props.isEmpty
  let has_transforms := ¬ parsed.transforms.isEmpty
  let app_names := parsed.host_metadata.apps.map strLower
  let has_parsing_apps := app_names.any (fun app =>
    strContains app "splunk_ta_" || strContains app "sa-" || strContains app "ta-")
  let has_search_apps := app_names.any (fun app => strContains app "search")
  let nd := parsed.inputs.filter (fun i => ¬ i.disabled)
  let has_splunktcp_input := nd.any (fun i => i.input_type == "splunktcp")
  let has_data_inputs := nd.any (fun i =>
    i.input_type == "monitor" || i.input_type == "tcp" || i.input_type == "udp"
      || i.input_type == "script" || i.input_type == "WinEventLog")
  let roles : List String := []
  let roles :=
    if has_splunktcp_input && ¬ has_outputs then roles ++ ["indexer"]
    else if has_splunktcp_input && has_outputs && ¬ has_parsing_apps && ¬ has_props then
      roles ++ ["indexer"]
    else roles
  let roles :=
    if has_data_inputs && has_outputs && (has_parsing_apps || has_props || has_transforms)
    then roles ++ ["heavy_forwarder"] else roles
  let roles :=
    if has_data_inputs && has_outputs && ¬ has_parsing_apps && ¬ has_props
        && ¬ has_transforms && ¬ roles.contains "heavy_forwarder"
    then roles ++ ["universal_forwarder"] else roles
  let roles :=
    if has_search_apps && ¬ has_data_inputs then roles ++ ["search_head"] else roles
  let hostname := strLower (parsed.host_metadata.hostname.getD "")
  let roles := patternFallback hostname app_names roles ROLE_PATTERNS
  if roles.isEmpty then ["unknown"] else roles

/-- Models `re.sub` with the `[^a-zA-Z0-9_-]` class replaced by `_`. -/
def sanitizeHostname (s : String) : String :=
  String.mk (s.data.map (fun c =>
    if c.isAlpha || c.isDigit || c = '_' || c = '-' then c else '_'))

/-- Embeds `extract_hostname` from resolver.py. -/
def extract_hostname (parsed : ParsedConfig) : String :=
  let hostname := parsed.host_metadata.hostname.getD ""
  let hostname :=
    if hostname = "" then "host_" ++ parsed.host_metadata.jobIdStr else hostname
  sanitizeHostname hostname

/-- Embeds `build_host` from resolver.py. -/
def build_host (parsed : ParsedConfig) : Host :=
  let labels :=
    (if optTruthy parsed.host_metadata.environment then
      ["env:" ++ parsed.host_metadata.environment.getD ""] else [])
    ++ (if optTruthy parsed.host_metadata.cluster then
      ["cluster:" ++ parsed.host_metadata.cluster.getD ""] else [])
  { id := extract_hostname parsed
    roles := infer_host_roles parsed
    labels := labels
    apps := parsed.host_metadata.apps }

/-- The `PROTOCOL_MAPPINGS` table from resolver.py, in dict order. -/
def PROTOCOL_MAPPINGS : List (String × String × String) :=
  [("monitor", "splunktcp", "forwarding"),
   ("tcp", "tcp", "syslog"),
   ("udp", "udp", "syslog"),
   ("splunktcp", "splunktcp", "forwarding"),
   ("http", "http_event_collector", "hec"),
   ("script", "splunktcp", "scripted_input"),
   ("WinEventLog", "splunktcp", "modinput"),
   ("modular_input", "splunktcp", "modinput")]

/-- First mapping whose key is a prefix of the lower-cased input type. -/
def findMapping : List (String × String × String) → String → Option (String × String)
  | [], _ => none
  | (k, pp) :: rest, it =>
    if strStartsWith it (strLower k) then some pp else findMapping rest it

/-- Embeds `determine_protocol_and_path_kind` from resolver.py. -/
def determine_protocol_and_path_kind (i : InputStanza) : String × String :=
  (findMapping PROTOCOL_MAPPINGS (strLower i.input_type)).getD ("splunktcp", "forwarding")

/-- Server-list targets of one output group (the non-discovery branch of
`resolve_output_targets`). -/
def serverTargets (g : OutputGroup) : List (String × Bool × String) :=
  g.servers.filterMap (fun server =>
    let host_part := strTrim ((splitChar ':' server).headD "")
    if host_part = "" then none
    else some (host_part,
      (g.ssl_enabled == some true || optTruthy g.ssl_cert_path, g.group_name)))

/-- Embeds `resolve_output_targets` from resolver.py; each tuple is
`(target_host, tls_enabled, group_name)`. -/
def resolve_output_targets (groups : List OutputGroup) : List (String × Bool × String) :=
  groups.flatMap (fun g =>
    if optTruthy g.indexer_discovery then
      [("indexer_discovery:" ++ g.indexer_discovery.getD "",
        (g.ssl_enabled == some true || optTruthy g.ssl_cert_path, g.group_name))]
    else serverTargets g)

/-! ### resolver.py — transform evaluation loop

The loop is embedded as an explicit state machine with the hard iteration
cap as structural fuel.  Besides the `(indexes, filters, drop_rules)`
accumulators of the source it carries the processed-combination set, a
trace of the processed-set additions in order (instrumentation used by the
termination claims) and the per-iteration `sourcetype_changed` flag. -/

/-- A `(props.stanza_type, props.stanza_value, current_sourcetype)`
combination, as stored in the `processed_props` set. -/
abbrev PropKey := String × String × Option String

/-- State threaded through `apply_transforms_to_index`. -/
structure TransformAcc where
  indexes : List String
  filters : List String
  drops : List String
  curS : Option String
  processed : List PropKey
  trace : List PropKey
  changed : Bool
deriving DecidableEq, Repr

/-- The per-prop match test of the loop body; returns the match type. -/
def propMatches (i : InputStanza) (curS : Option String) (p : PropsStanza) :
    Option String :=
  if p.stanza_type = "sourcetype" && curS == some p.stanza_value then some "sourcetype"
  else if p.stanza_type = "source" && optTruthy i.source_path then
    (if p.stanza_value == i.source_path.getD "" then some "source"
     else if strEndsWith p.stanza_value "*"
         && strStartsWith (i.source_path.getD "") (strDropRight p.stanza_value 1) then
       some "source"
     else none)
  else if p.stanza_type = "host" && some p.stanza_value == i.host then some "host"
  else none

/-- Matching-props computation of one iteration: skip combinations already
in the processed set, then order matches host, source, sourcetype (the
Python stable sort on precedence rank with `reverse=True`). -/
def matchingPropsFor (i : InputStanza) (props : List PropsStanza)
    (processed : List PropKey) (curS : Option String) :
    List (String × PropsStanza) :=
  let cands := props.filterMap (fun p =>
    if processed.contains (p.stanza_type, p.stanza_value, curS) then none
    else (propMatches i curS p).map (fun mt => (mt, p)))
  cands.filter (fun c => c.1 == "host")
    ++ cands.filter (fun c => c.1 == "source")
    ++ cands.filter (fun c => c.1 != "host" && c.1 != "source")

/-- Applying one referenced transform: index routing appends to the index
list, a drop clears it and records a drop rule, a sourcetype rewrite
updates the running sourcetype and flags re-evaluation. -/
def applyTransformRef (transforms : List TransformStanza) (st : TransformAcc)
    (ref : String) : TransformAcc :=
  match transforms.find? (fun t => t.stanza_name == ref) with
  | none => st
  | some t =>
    let st :=
      if t.is_index_routing && optTruthy t.format then
        { st with indexes := st.indexes ++ [t.format.getD ""],
                  filters := st.filters ++ ["TRANSFORMS:" ++ ref] }
      else st
    let st :=
      if t.is_drop then
        { st with drops := st.drops ++ ["DROP:" ++ ref], indexes := [] }
      else st
    if t.is_sourcetype_rewrite && optTruthy t.format then
      let newS := t.format.getD ""
      let st := { st with filters := st.filters ++ ["SOURCETYPE_REWRITE:" ++ ref] }
      if some newS ≠ st.curS then { st with curS := some newS, changed := true }
      else st
    else st

/-- Processing one matched props stanza: record its combination key
(computed with the sourcetype current at processing time, as in the
source) and evaluate its transform references in order. -/
def processProp (transforms : List TransformStanza) (st : TransformAcc)
    (mp : String × PropsStanza) : TransformAcc :=
  let key : PropKey := (mp.2.stanza_type, mp.2.stanza_value, st.curS)
  let st := { st with processed := st.processed ++ [key], trace := st.trace ++ [key] }
  mp.2.transforms.foldl (applyTransformRef transforms) st

/-- The bounded re-evaluation loop (`while iteration < max_iterations`),
with the cap as fuel; returns the final state and the iteration count. -/
def transformLoopGo (i : InputStanza) (props : List PropsStanza)
    (transforms : List TransformStanza) :
    Nat → TransformAcc → Nat → TransformAcc × Nat
  | 0, st, iters => (st, iters)
  | fuel + 1, st, iters =>
    let iters := iters + 1
    let matching := matchingPropsFor i props st.processed st.curS
    if matching.isEmpty then (st, iters)
    else
      let st := { st with changed := false }
      let st := matching.foldl (processProp transforms) st
      if st.changed then transformLoopGo i props transforms fuel st iters
      else (st, iters)

/-- Initial state: the input's declared index (default `"main"`, with
Python truthiness) and its sourcetype. -/
def initialTransformAcc (i : InputStanza) : TransformAcc :=
  { indexes := if optTruthy i.index then [i.index.getD ""] else ["main"],
    filters := [], drops := [], curS := i.sourcetype, processed := [],
    trace := [], changed := false }

/-- Instrumented evaluation: final state plus iteration count. -/
def transformEval (i : InputStanza) (props : List PropsStanza)
    (transforms : List TransformStanza) : TransformAcc × Nat :=
  transformLoopGo i props transforms 10 (initialTransformAcc i) 0

/-- Embeds `apply_transforms_to_index` from resolver.py, returning
`(final_indexes, filters_applied, drop_rules)`. -/
def apply_transforms_to_index (i : InputStanza) (props : List PropsStanza)
    (transforms : List TransformStanza) : List String × List String × List String :=
  let r := (transformEval i props transforms).1
  (r.indexes, r.filters, r.drops)

/-! ### resolver.py — edge construction and merging -/

/-- Embeds `build_edges_from_inputs_outputs` from resolver.py. -/
def build_edges_from_inputs_outputs (parsed : ParsedConfig) (srcHost : Host) :
    List Edge :=
  let output_targets := resolve_output_targets parsed.outputs
  let has_default_group := parsed.outputs.any (fun g => g.default_group)
  let is_ambiguous_routing := decide (parsed.outputs.length > 1) && ¬ has_default_group
  parsed.inputs.flatMap (fun i =>
    if i.disabled then []
    else
      let pk := (determine_protocol_and_path_kind i).2
      let res := apply_transforms_to_index i parsed.props parsed.transforms
      let sources := if i.stanza_name ≠ "" then [i.stanza_name] else []
      let sourcetypes := if optTruthy i.sourcetype then [i.sourcetype.getD ""] else []
      let app_contexts := if optTruthy i.source_app then [i.source_app.getD ""] else []
      if output_targets.isEmpty then
        [{ src_host := srcHost.id, dst_host := "unknown_destination",
           protocol := "splunktcp", path_kind := pk, sources := sources,
           sourcetypes := sourcetypes, indexes := res.1, filters := res.2.1,
           drop_rules := res.2.2, tls := none, weight := 1,
           app_contexts := app_contexts, confidence := "derived" }]
      else
        output_targets.map (fun tgt =>
          { src_host := srcHost.id, dst_host := tgt.1, protocol := "splunktcp",
            path_kind := pk, sources := sources, sourcetypes := sourcetypes,
            indexes := res.1, filters := res.2.1, drop_rules := res.2.2,
            tls := some tgt.2.1, weight := 1, app_contexts := app_contexts,
            confidence := if is_ambiguous_routing then "derived" else "explicit" }))

/-- Grouping key of `merge_similar_edges`. -/
abbrev EdgeKey := String × String × String × String

/-- The `(src_host, dst_host, protocol, path_kind)` key of an edge. -/
def edgeKey (e : Edge) : EdgeKey := (e.src_host, e.dst_host, e.protocol, e.path_kind)

/-- The group of a key: the sublist of edges with that key, in input
order (exactly the dict-of-lists grouping of the source). -/
def groupOf (edges : List Edge) (k : EdgeKey) : List Edge :=
  edges.filter (fun e => edgeKey e == k)

/-- First-occurrence deduplication (Python dict/set insertion order). -/
def firstDedupAux [DecidableEq α] (seen : List α) : List α → List α
  | [] => []
  | a :: as =>
    if seen.contains a then firstDedupAux seen as
    else a :: firstDedupAux (a :: seen) as

/-- First-occurrence deduplication of a list. -/
def firstDedup [DecidableEq α] (l : List α) : List α := firstDedupAux [] l

/-- Lexicographic string sort (Python `sorted`). -/
def sortStr (l : List String) : List String :=
  List.insertionSort (fun a b => strLe a b = true) l

/-- Models Python `sorted(set(..))`: the sorted list of distinct elements. -/
def sortDedup (l : List String) : List String := sortStr l.dedup

/-- TLS merge over the non-null member values: `False` dominates, all
`True` gives `True`, no values gives `None` (the source's dead
mixed-value branch can never fire once any-`False` is handled). -/
def mergeTls (tlsValues : List Bool) : Option Bool :=
  if tlsValues.isEmpty then none
  else if tlsValues.contains false then some false
  else if tlsValues.all (fun b => b) then some true
  else none

/-- Merging a group of edges sharing one key: union the list fields
(sorted-set semantics, except `filters` which deduplicate preserving
first-seen order), merge TLS, sum weights, downgrade confidence. -/
def mergeGroup (k : EdgeKey) (g : List Edge) : Edge :=
  { src_host := k.1, dst_host := k.2.1, protocol := k.2.2.1, path_kind := k.2.2.2,
    sources := sortDedup (g.flatMap Edge.sources),
    sourcetypes := sortDedup (g.flatMap Edge.sourcetypes),
    indexes := sortDedup (g.flatMap Edge.indexes),
    filters := firstDedup (g.flatMap Edge.filters),
    drop_rules := sortDedup (g.flatMap Edge.drop_rules),
    tls := mergeTls (g.filterMap Edge.tls),
    weight := (g.map Edge.weight).sum,
    app_contexts := sortDedup (g.flatMap Edge.app_contexts),
    confidence := if g.any (fun e => e.confidence == "derived") then "derived"
      else "explicit" }

/-- The output edge for one key: a single-member group is kept verbatim
(the `len(group) == 1` early path of the source), larger groups merge. -/
def mergedFor (edges : List Edge) (k : EdgeKey) : Edge :=
  match groupOf edges k with
  | [e] => e
  | g => mergeGroup k g

/-- Embeds `merge_similar_edges` from resolver.py: one output edge per
distinct key, in first-occurrence key order. -/
def merge_similar_edges (edges : List Edge) : List Edge :=
  (firstDedup (edges.map edgeKey)).map (mergedFor edges)

/-! ### resolver.py — placeholders, metadata, main entry point -/

/-- Placeholder host synthesis for one unknown destination id, embedding
the role heuristics of `create_placeholder_hosts`. -/
def placeholderFor (hostId : String) : Host :=
  let hostLower := strLower hostId
  if hostId = "unknown_destination" then
    { id := hostId, roles := ["unknown"], labels := ["placeholder"], apps := [] }
  else if strStartsWith hostId "indexer_discovery:" then
    { id := hostId, roles := ["indexer"],
      labels := ["indexer_discovery", "placeholder"], apps := [] }
  else if strContains hostLower "idx" || strContains hostLower "indexer" then
    { id := hostId, roles := ["indexer"], labels := ["placeholder"], apps := [] }
  else if strContains hostLower "hf" || strContains hostLower "heavy" then
    { id := hostId, roles := ["heavy_forwarder"], labels := ["placeholder"], apps := [] }
  else if strContains hostLower "uf" || strContains hostLower "forwarder" then
    { id := hostId, roles := ["universal_forwarder"], labels := ["placeholder"], apps := [] }
  else if strContains hostLower "search" || strContains hostLower "sh" then
    { id := hostId, roles := ["search_head"], labels := ["placeholder"], apps := [] }
  else { id := hostId, roles := ["unknown"], labels := ["placeholder"], apps := [] }

/-- Embeds `create_placeholder_hosts` from resolver.py (the Python set of
unknown destinations is modelled in first-occurrence order). -/
def create_placeholder_hosts (edges : List Edge) (knownHosts : List String) :
    List Host :=
  (firstDedup ((edges.map Edge.dst_host).filter
    (fun d => ¬ knownHosts.contains d))).map placeholderFor

/-- Resolver-added counters inside graph-metadata traceability. -/
structure ResolverMeta where
  input_counts : List (String × Nat) := []
  output_group_count : Nat := 0
  props_count : Nat := 0
  transforms_count : Nat := 0
  apps_found : List String := []
deriving DecidableEq, Repr

/-- Embeds the resolver's `GraphMeta` dataclass (`generated_at` is the
caller-supplied timestamp rendering). -/
structure GraphMeta where
  generator : String
  generated_at : String
  host_count : Nat
  edge_count : Nat
  source_hosts : List String := []
  traceability : List (String × List String) := []
  resolver : ResolverMeta := {}
deriving DecidableEq, Repr

/-- Histogram bump for the input-type counters. -/
def bumpCount : List (String × Nat) → String → List (String × Nat)
  | [], k => [(k, 1)]
  | (k', n) :: rest, k =>
    if k' = k then (k', n + 1) :: rest else (k', n) :: bumpCount rest k

/-- Embeds `build_graph_metadata` from resolver.py. -/
def build_graph_metadata (now : String) (parsed : ParsedConfig)
    (hosts : List Host) (edges : List Edge) : GraphMeta :=
  { generator := "splunk-autodoc-v2.0"
    generated_at := now
    host_count := hosts.length
    edge_count := edges.length
    source_hosts := (hosts.filter (fun h => ¬ h.labels.contains "placeholder")).map Host.id
    traceability := parsed.traceability
    resolver :=
      { input_counts := parsed.inputs.foldl (fun acc i => bumpCount acc i.input_type) []
        output_group_count := parsed.outputs.length
        props_count := parsed.props.length
        transforms_count := parsed.transforms.length
        apps_found := parsed.host_metadata.apps } }

/-- The canonical graph structure serialized into `Graph.json_blob`:
the `hosts`, `edges` and `meta` members of the result dict. -/
structure CanonicalGraph where
  hosts : List Host
  edges : List Edge
  meta : GraphMeta
deriving DecidableEq, Repr

/-- Embeds `build_canonical_graph` from resolver.py; the `ValueError` on
an empty `ParsedConfig` becomes the `Except.error` case, and `now` is the
`datetime.now` reading passed explicitly. -/
def build_canonical_graph (now : String) (parsed : ParsedConfig) :
    Except String CanonicalGraph :=
  if parsed.inputs.isEmpty && parsed.outputs.isEmpty then
    .error "ParsedConfig must have at least one input or output"
  else
    let host := build_host parsed
    let edges0 := build_edges_from_inputs_outputs parsed host
    let edges := merge_similar_edges edges0
    let placeholder_hosts := create_placeholder_hosts edges [host.id]
    let all_hosts := [host] ++ placeholder_hosts
    let meta := build_graph_metadata now parsed all_hosts edges
    .ok { hosts := all_hosts, edges := edges, meta := meta }

/-! ### validator.py

The validator reads the canonical graph JSON; here it consumes the typed
`CanonicalGraph` whose fields are exactly the serialized dict entries.
Findings keep the fields the claims inspect (`code`, `severity` and the
edge-identifying context entries); the human-readable message and the
attached `meta` block carry no information used by any rule. -/

/-- One validation finding: code, severity, and the context entries that
identify the offending edge (plus the `index` entry for `UNKNOWN_INDEX`). -/
structure Finding where
  code : String
  severity : String
  ctxSrc : String
  ctxDst : String
  ctxIndex : Option String := none
deriving DecidableEq, Repr

/-- Protocols that require TLS (`TLS_REQUIRED_PROTOCOLS`). -/
def TLS_REQUIRED_PROTOCOLS : List String := ["splunktcp", "http_event_collector"]

/-- Embeds `is_placeholder_host` from validator.py. -/
def is_placeholder_host (h : Host) : Bool :=
  h.labels.contains "placeholder"
    || h.id == "unknown_destination"
    || strStartsWith h.id "indexer_discovery:"
    || h.roles.contains "unknown"

/-- Embeds `get_placeholder_host_ids` (a set used only via membership;
the non-empty-id guard mirrors the Python truthiness check). -/
def get_placeholder_host_ids (hosts : List Host) : List String :=
  hosts.filterMap (fun h =>
    if is_placeholder_host h && h.id ≠ "" then some h.id else none)

/-- Embeds `collect_known_indexes`: indexes on edges to non-placeholder
destinations (a set used only via membership). -/
def collect_known_indexes (edges : List Edge) (placeholderIds : List String) :
    List String :=
  edges.foldl (fun acc e =>
    if e.dst_host ≠ "" && ¬ placeholderIds.contains e.dst_host then
      acc ++ e.indexes
    else acc) []

/-- The findings one edge contributes to `detect_dangling_outputs`. -/
def danglingPerEdge (placeholderIds : List String) (e : Edge) : List Finding :=
  if e.dst_host ≠ "" && placeholderIds.contains e.dst_host then
    [{ code := "DANGLING_OUTPUT", severity := "error",
       ctxSrc := e.src_host, ctxDst := e.dst_host }]
  else []

/-- Embeds `detect_dangling_outputs` from validator.py. -/
def detect_dangling_outputs (hosts : List Host) (edges : List Edge) : List Finding :=
  edges.flatMap (danglingPerEdge (get_placeholder_host_ids hosts))

/-- The findings one edge contributes to `detect_unknown_indexes`: one
finding per index of the edge that is not in the known set. -/
def unknownPerEdge (knownIndexes : List String) (e : Edge) : List Finding :=
  e.indexes.filterMap (fun idx =>
    if knownIndexes.contains idx then none
    else some { code := "UNKNOWN_INDEX", severity := "warning",
                ctxSrc := e.src_host, ctxDst := e.dst_host, ctxIndex := some idx })

/-- Embeds `detect_unknown_indexes` from validator.py. -/
def detect_unknown_indexes (edges : List Edge) (knownIndexes : List String) :
    List Finding :=
  edges.flatMap (unknownPerEdge knownIndexes)

/-- The findings one edge contributes to `detect_unsecured_pipes`. -/
def unsecuredPerEdge (e : Edge) : List Finding :=
  if TLS_REQUIRED_PROTOCOLS.contains e.protocol
      && (e.tls == some false || e.tls == none) then
    [{ code := "UNSECURED_PIPE", severity := "warning",
       ctxSrc := e.src_host, ctxDst := e.dst_host }]
  else []

/-- Embeds `detect_unsecured_pipes` from validator.py. -/
def detect_unsecured_pipes (edges : List Edge) : List Finding :=
  edges.flatMap unsecuredPerEdge

/-- The findings one edge contributes to `detect_drop_paths`. -/
def dropPerEdge (e : Edge) : List Finding :=
  if ¬ e.drop_rules.isEmpty then
    [{ code := "DROP_PATH", severity := "info",
       ctxSrc := e.src_host, ctxDst := e.dst_host }]
  else []

/-- Embeds `detect_drop_paths` from validator.py. -/
def detect_drop_paths (edges : List Edge) : List Finding :=
  edges.flatMap dropPerEdge

/-- The findings one edge contributes to `detect_ambiguous_groups`. -/
def ambiguousPerEdge (e : Edge) : List Finding :=
  if e.confidence == "derived" then
    [{ code := "AMBIGUOUS_GROUP", severity := "warning",
       ctxSrc := e.src_host, ctxDst := e.dst_host }]
  else []

/-- Embeds `detect_ambiguous_groups` from validator.py. -/
def detect_ambiguous_groups (edges : List Edge) : List Finding :=
  edges.flatMap ambiguousPerEdge

/-- Embeds `validate_graph` from validator.py: the five rules in order,
with the empty-graph early return. -/
def validate_graph (g : CanonicalGraph) : List Finding :=
  if g.hosts.isEmpty && g.edges.isEmpty then []
  else
    let placeholderIds := get_placeholder_host_ids g.hosts
    let knownIndexes := collect_known_indexes g.edges placeholderIds
    detect_dangling_outputs g.hosts g.edges
      ++ detect_unknown_indexes g.edges knownIndexes
      ++ detect_unsecured_pipes g.edges
      ++ detect_drop_paths g.edges
      ++ detect_ambiguous_groups g.edges

/-! ## Shared lemmas -/

/-- Bridge between boolean `contains` and membership. -/
theorem contains_eq_mem {α} [BEq α] [LawfulBEq α] {l : List α} {a : α} :
    l.contains a = true ↔ a ∈ l := by
  simp [List.contains_iff_exists_mem_beq]

/-- A tri-state that is neither `some false` nor `none` is `some true`. -/
theorem optBool_eq_some_true {b : Option Bool} (h1 : b ≠ some false)
    (h2 : b ≠ none) : b = some true := by
  cases b with
  | none => exact absurd rfl h2
  | some v =>
    cases v with
    | false => exact absurd rfl h1
    | true => rfl

/-- TLS merge yields `some false` as soon as a `false` value is present. -/
theorem mergeTls_of_false {vals : List Bool} (h : false ∈ vals) :
    mergeTls vals = some false := by
  have h1 : vals.isEmpty = false := by
    cases vals with
    | nil => cases h
    | cons a t => rfl
  have h2 : vals.contains false = true := contains_eq_mem.mpr h
  simp [mergeTls, h1, h2, h]

/-- TLS merge yields `some true` when values exist and none is `false`. -/
theorem mergeTls_of_all_true {vals : List Bool} (hne : vals ≠ [])
    (h : false ∉ vals) : mergeTls vals = some true := by
  have h1 : vals.isEmpty = false := by
    cases vals with
    | nil => exact absurd rfl hne
    | cons a t => rfl
  have h2 : vals.contains false = false := by
    cases hc : vals.contains false with
    | false => rfl
    | true => exact absurd (contains_eq_mem.mp hc) h
  have h3 : vals.all (fun b => b) = true := by
    rw [List.all_eq_true]
    intro x hx
    cases x with
    | false => exact absurd hx h
    | true => rfl
  simp [mergeTls, h1, h2, h3, h]

/-- TLS merge of no values is `none`. -/
theorem mergeTls_nil : mergeTls [] = none := rfl

/-- Membership in the first-occurrence deduplication worker. -/
theorem mem_firstDedupAux {α} [DecidableEq α] {l : List α} :
    ∀ {seen : List α} {a : α},
      (a ∈ firstDedupAux seen l ↔ a ∈ l ∧ a ∉ seen) := by
  induction l with
  | nil => intro seen a; simp [firstDedupAux]
  | cons b t ih =>
    intro seen a
    by_cases hb : b ∈ seen
    · have hc : seen.contains b = true := contains_eq_mem.mpr hb
      rw [firstDedupAux]
      simp only [hc, if_pos]
      rw [ih]
      constructor
      · rintro ⟨hat, hns⟩
        exact ⟨List.mem_cons_of_mem b hat, hns⟩
      · rintro ⟨hat, hns⟩
        rcases List.mem_cons.mp hat with rfl | hat'
        · exact absurd hb hns
        · exact ⟨hat', hns⟩
    · have hc : seen.contains b = false := by
        cases h : seen.contains b with
        | false => rfl
        | true => exact absurd (contains_eq_mem.mp h) hb
      rw [firstDedupAux]
      simp only [hc, if_neg, Bool.false_eq_true, not_false_eq_true]
      constructor
      · intro h
        rcases List.mem_cons.mp h with rfl | h'
        · exact ⟨List.mem_cons_self _ _, hb⟩
        · obtain ⟨hat, hns⟩ := ih.mp h'
          exact ⟨List.mem_cons_of_mem b hat,
            fun hs => hns (List.mem_cons_of_mem b hs)⟩
      · rintro ⟨hat, hns⟩
        rcases List.mem_cons.mp hat with rfl | hat'
        · exact List.mem_cons_self _ _
        · by_cases hab : a = b
          · subst hab; exact List.mem_cons_self _ _
          · refine List.mem_cons_of_mem b (ih.mpr ⟨hat', ?_⟩)
            intro hmem
            rcases List.mem_cons.mp hmem with h1 | h1
            · exact hab h1
            · exact hns h1

/-- Membership in `firstDedup`. -/
theorem mem_firstDedup {α} [DecidableEq α] {l : List α} {a : α} :
    a ∈ firstDedup l ↔ a ∈ l := by
  rw [firstDedup, mem_firstDedupAux]
  simp

/-- The first-occurrence deduplication worker has no duplicates. -/
theorem nodup_firstDedupAux {α} [DecidableEq α] {l : List α} :
    ∀ {seen : List α}, (firstDedupAux seen l).Nodup := by
  induction l with
  | nil => intro seen; simp [firstDedupAux]
  | cons b t ih =>
    intro seen
    rw [firstDedupAux]
    by_cases hc : seen.contains b
    · simp only [hc, if_pos]
      exact ih
    · simp only [hc, if_neg, Bool.false_eq_true, not_false_eq_true]
      refine List.Nodup.cons ?_ ih
      intro hmem
      exact (mem_firstDedupAux.mp hmem).2 (List.mem_cons_self b seen)

/-- The first-occurrence deduplication has no duplicates. -/
theorem nodup_firstDedup {α} [DecidableEq α] {l : List α} :
    (firstDedup l).Nodup := nodup_firstDedupAux

/-- First-occurrence deduplication commutes with an injective map. -/
theorem firstDedupAux_map_inj {α β} [DecidableEq α] [DecidableEq β] {f : α → β}
    (hf : Function.Injective f) {l : List α} :
    ∀ {seen : List α},
      firstDedupAux (seen.map f) (l.map f) = (firstDedupAux seen l).map f := by
  induction l with
  | nil => intro seen; simp [firstDedupAux]
  | cons b t ih =>
    intro seen
    have hcond : (seen.map f).contains (f b) = seen.contains b := by
      cases h : seen.contains b with
      | true =>
        have : f b ∈ seen.map f := List.mem_map_of_mem f (contains_eq_mem.mp h)
        exact contains_eq_mem.mpr this
      | false =>
        cases h2 : (seen.map f).contains (f b) with
        | false => rfl
        | true =>
          obtain ⟨a, ha, hfa⟩ := List.mem_map.mp (contains_eq_mem.mp h2)
          have : a = b := hf hfa
          subst this
          have := contains_eq_mem.mpr ha
          rw [h] at this
          cases this
    rw [List.map_cons, firstDedupAux, firstDedupAux, hcond]
    by_cases h : seen.contains b
    · simp only [h, if_pos]
      exact ih
    · simp only [h, if_neg, Bool.false_eq_true, not_false_eq_true, List.map_cons]
      rw [← List.map_cons f b seen]
      rw [ih]

/-- First-occurrence deduplication after an injective map. -/
theorem firstDedup_map_inj {α β} [DecidableEq α] [DecidableEq β] {f : α → β}
    (hf : Function.Injective f) (l : List α) :
    firstDedup (l.map f) = (firstDedup l).map f := by
  rw [firstDedup, firstDedup]
  exact @firstDedupAux_map_inj _ _ _ _ f hf l []

/-- Every output of `merge_similar_edges` is the merged edge of a key
occurring among the input edges' keys. -/
theorem mem_merge_similar_edges {edges : List Edge} {e : Edge}
    (h : e ∈ merge_similar_edges edges) :
    ∃ k, k ∈ edges.map edgeKey ∧ e = mergedFor edges k := by
  rw [merge_similar_edges] at h
  obtain ⟨k, hk, hek⟩ := List.mem_map.mp h
  exact ⟨k, mem_firstDedup.mp hk, hek.symm⟩

/-- Unfolding of the lexicographic comparison on cons cells. -/
theorem lexLe_cons_iff {a b : Char} {as bs : List Char} :
    lexLe (a :: as) (b :: bs) = true ↔ a < b ∨ (a = b ∧ lexLe as bs = true) := by
  rw [lexLe]
  by_cases h1 : a < b
  · simp [h1]
  · by_cases h2 : a = b
    · simp [h1, h2]
    · simp [h1, h2]

/-- Totality of the lexicographic comparison. -/
theorem lexLe_total : ∀ (a b : List Char), lexLe a b = true ∨ lexLe b a = true
  | [], _ => Or.inl rfl
  | _ :: _, [] => Or.inr rfl
  | a :: as, b :: bs => by
    rcases lt_trichotomy a b with h | h | h
    · exact Or.inl (lexLe_cons_iff.mpr (Or.inl h))
    · rcases lexLe_total as bs with ih | ih
      · exact Or.inl (lexLe_cons_iff.mpr (Or.inr ⟨h, ih⟩))
      · exact Or.inr (lexLe_cons_iff.mpr (Or.inr ⟨h.symm, ih⟩))
    · exact Or.inr (lexLe_cons_iff.mpr (Or.inl h))

/-- Transitivity of the lexicographic comparison. -/
theorem lexLe_trans : ∀ {a b c : List Char},
    lexLe a b = true → lexLe b c = true → lexLe a c = true
  | [], _, _, _, _ => rfl
  | _ :: _, [], _, h1, _ => by cases h1
  | _ :: _, _ :: _, [], _, h2 => by cases h2
  | a :: as, b :: bs, c :: cs, h1, h2 => by
    rcases lexLe_cons_iff.mp h1 with hab | ⟨hab, h1'⟩ <;>
      rcases lexLe_cons_iff.mp h2 with hbc | ⟨hbc, h2'⟩
    · exact lexLe_cons_iff.mpr (Or.inl (lt_trans hab hbc))
    · exact lexLe_cons_iff.mpr (Or.inl (hbc ▸ hab))
    · exact lexLe_cons_iff.mpr (Or.inl (hab ▸ hbc))
    · exact lexLe_cons_iff.mpr (Or.inr ⟨hab.trans hbc, lexLe_trans h1' h2'⟩)

/-- Antisymmetry of the lexicographic comparison. -/
theorem lexLe_antisymm : ∀ {a b : List Char},
    lexLe a b = true → lexLe b a = true → a = b
  | [], [], _, _ => rfl
  | [], _ :: _, _, h2 => by cases h2
  | _ :: _, [], h1, _ => by cases h1
  | a :: as, b :: bs, h1, h2 => by
    rcases lexLe_cons_iff.mp h1 with hab | ⟨hab, h1'⟩ <;>
      rcases lexLe_cons_iff.mp h2 with hba | ⟨hba, h2'⟩
    · exact absurd hba (lt_asymm hab)
    · exact absurd hab (hba ▸ lt_irrefl b)
    · exact absurd hba (hab ▸ lt_irrefl a)
    · rw [hab, lexLe_antisymm h1' h2']

instance : IsTotal String (fun a b => strLe a b = true) :=
  ⟨fun a b => lexLe_total a.data b.data⟩

instance : IsTrans String (fun a b => strLe a b = true) :=
  ⟨fun _ _ _ h1 h2 => lexLe_trans h1 h2⟩

instance : IsAntisymm String (fun a b => strLe a b = true) :=
  ⟨fun a b h1 h2 => by
    cases a; cases b
    exact congrArg String.mk (lexLe_antisymm h1 h2)⟩

/-- The string sort is a permutation of its input. -/
theorem sortStr_perm (l : List String) : (sortStr l).Perm l :=
  List.perm_insertionSort _ _

/-- The string sort is sorted. -/
theorem sortStr_sorted (l : List String) :
    List.Sorted (fun a b => strLe a b = true) (sortStr l) :=
  List.sorted_insertionSort _ _

/-- The sorted distinct list depends only on the multiset of elements. -/
theorem sortDedup_eq_of_perm {l l' : List String} (h : l.Perm l') :
    sortDedup l = sortDedup l' :=
  List.eq_of_perm_of_sorted
    ((sortStr_perm _).trans (h.dedup.trans (sortStr_perm _).symm))
    (sortStr_sorted _) (sortStr_sorted _)

/-! ## Claim C2 — TLS merge lattice -/

/-- Concrete edges sharing one merge key, with `tls = true` and
`tls = null` respectively. -/
def c2edgeTrue : Edge :=
  { src_host := "h", dst_host := "d", protocol := "splunktcp",
    path_kind := "forwarding", tls := some true }

/-- Second member of the C2 group, with unknown TLS. -/
def c2edgeNull : Edge :=
  { src_host := "h", dst_host := "d", protocol := "splunktcp",
    path_kind := "forwarding", tls := none }

/-- C2 counterexample: a merge group consisting of one member with
`tls = true` and one member with `tls = null` merges to `tls = true`,
not to `tls = null` as the claim states — `None` members are excluded
from `tls_values` before the `all(... is True ...)` test. -/
theorem c2_counterexample :
    (mergedFor [c2edgeTrue, c2edgeNull] ("h", "d", "splunktcp", "forwarding")).tls
        = some true
      ∧ (mergedFor [c2edgeTrue, c2edgeNull] ("h", "d", "splunktcp", "forwarding")).tls
        ≠ none := by
  constructor
  · rfl
  · decide

/-- C2 (amended): for every merge group, the merged `tls` is `false` if
any member's `tls` is `false`; otherwise it is `true` if at least one
member has a non-null `tls` (null members are ignored, so all non-null
members are `true`); and it is `null` only when every member's `tls` is
null. -/
theorem c2_tls_merge_lattice (l : List Edge) (k : EdgeKey) :
    ((∃ e ∈ groupOf l k, e.tls = some false) → (mergedFor l k).tls = some false)
    ∧ ((∀ e ∈ groupOf l k, e.tls ≠ some false) → (∃ e ∈ groupOf l k, e.tls ≠ none) →
        (mergedFor l k).tls = some true)
    ∧ ((∀ e ∈ groupOf l k, e.tls = none) → (mergedFor l k).tls = none) := by
  unfold mergedFor
  cases hg : groupOf l k with
  | nil =>
    refine ⟨?_, ?_, ?_⟩
    · rintro ⟨e, he, -⟩; cases he
    · rintro - ⟨e, he, -⟩; cases he
    · intro _; rfl
  | cons e0 rest =>
    cases rest with
    | nil =>
      refine ⟨?_, ?_, ?_⟩
      · rintro ⟨e, he, hf⟩
        rw [List.mem_singleton] at he
        show e0.tls = some false
        rw [← he]
        exact hf
      · rintro hall ⟨e, he, hn⟩
        rw [List.mem_singleton] at he
        rw [he] at hn
        show e0.tls = some true
        exact optBool_eq_some_true (hall e0 (List.mem_singleton.mpr rfl)) hn
      · intro hall
        show e0.tls = none
        exact hall e0 (List.mem_singleton.mpr rfl)
    | cons e1 rest' =>
      refine ⟨?_, ?_, ?_⟩
      · rintro ⟨e, he, hf⟩
        show (mergeGroup k (e0 :: e1 :: rest')).tls = some false
        have : false ∈ (e0 :: e1 :: rest').filterMap Edge.tls := by
          rw [List.mem_filterMap]
          exact ⟨e, he, hf⟩
        exact mergeTls_of_false this
      · rintro hall ⟨e, he, hn⟩
        show (mergeGroup k (e0 :: e1 :: rest')).tls = some true
        have hne : (e0 :: e1 :: rest').filterMap Edge.tls ≠ [] := by
          intro hemp
          rw [List.filterMap_eq_nil_iff] at hemp
          exact hn (hemp e he)
        have hnf : false ∉ (e0 :: e1 :: rest').filterMap Edge.tls := by
          intro hmem
          rw [List.mem_filterMap] at hmem
          obtain ⟨e', he', hf⟩ := hmem
          exact hall e' he' hf
        exact mergeTls_of_all_true hne hnf
      · intro hall
        show (mergeGroup k (e0 :: e1 :: rest')).tls = none
        have : (e0 :: e1 :: rest').filterMap Edge.tls = [] := by
          rw [List.filterMap_eq_nil_iff]
          exact hall
        rw [mergeGroup]
        simp only [this]
        rfl

/-- C2 witness: the amended lattice evaluated on a concrete two-member
group with `tls = false` and `tls = true`. -/
theorem c2_tls_merge_lattice_witness :
    (∃ e ∈ groupOf [c2edgeTrue, { c2edgeNull with tls := some false }]
        ("h", "d", "splunktcp", "forwarding"), e.tls = some false)
    ∧ (mergedFor [c2edgeTrue, { c2edgeNull with tls := some false }]
        ("h", "d", "splunktcp", "forwarding")).tls = some false :=
  ⟨by decide,
   (c2_tls_merge_lattice [c2edgeTrue, { c2edgeNull with tls := some false }]
      ("h", "d", "splunktcp", "forwarding")).1 (by decide)⟩

/-! ## Claim C9 — every resolver edge has protocol splunktcp -/

/-- All edges built from inputs/outputs carry the literal protocol
`"splunktcp"`; the protocol column of `PROTOCOL_MAPPINGS` is discarded. -/
theorem build_edges_protocol (parsed : ParsedConfig) (h : Host) :
    ∀ e ∈ build_edges_from_inputs_outputs parsed h, e.protocol = "splunktcp" := by
  intro e he
  simp only [build_edges_from_inputs_outputs, List.mem_flatMap] at he
  obtain ⟨i, hi, hei⟩ := he
  by_cases hd : i.disabled
  · simp [hd] at hei
  · simp only [hd, Bool.false_eq_true, if_false] at hei
    by_cases ht : (resolve_output_targets parsed.outputs).isEmpty
    · simp only [ht, if_true] at hei
      rw [List.mem_singleton] at hei
      subst hei
      rfl
    · simp only [ht, Bool.false_eq_true, if_false] at hei
      obtain ⟨tgt, htgt, rfl⟩ := List.mem_map.mp hei
      rfl

/-- Case analysis on the output of `mergedFor`: a single-member group is
passed through verbatim, anything else goes through `mergeGroup`. -/
theorem mergedFor_cases (edges : List Edge) (k : EdgeKey) :
    (∃ e, groupOf edges k = [e] ∧ mergedFor edges k = e)
    ∨ mergedFor edges k = mergeGroup k (groupOf edges k) := by
  cases hg : groupOf edges k with
  | nil => right; rw [mergedFor, hg]
  | cons a rest =>
    cases rest with
    | nil => left; exact ⟨a, rfl, by rw [mergedFor, hg]⟩
    | cons b rest2 => right; rw [mergedFor, hg]

/-- The member of a singleton group belongs to the grouped edge list. -/
theorem mem_of_groupOf_singleton {edges : List Edge} {k : EdgeKey} {e : Edge}
    (hg : groupOf edges k = [e]) : e ∈ edges := by
  have : e ∈ groupOf edges k := by rw [hg]; exact List.mem_singleton.mpr rfl
  exact (List.mem_filter.mp this).1

/-- Merging preserves an edge-protocol invariant held by all inputs. -/
theorem merge_preserves_protocol {edges : List Edge} {p : String}
    (h : ∀ e ∈ edges, e.protocol = p) :
    ∀ e ∈ merge_similar_edges edges, e.protocol = p := by
  intro e he
  obtain ⟨k, hk, rfl⟩ := mem_merge_similar_edges he
  obtain ⟨e0, he0, hke⟩ := List.mem_map.mp hk
  rcases mergedFor_cases edges k with ⟨e1, hg, hm⟩ | hm
  · rw [hm]
    exact h e1 (mem_of_groupOf_singleton hg)
  · rw [hm]
    show k.2.2.1 = p
    rw [← hke]
    exact h e0 he0

/-- C9: every edge produced by `build_edges_from_inputs_outputs` — and
hence every edge of the canonical graph — has protocol `"splunktcp"`,
for every input kind (http, tcp, udp included): only the path kind of the
protocol mapping table reaches the edge, so no resolver edge carries
`"http_event_collector"`, `"tcp"`, `"udp"` or `"syslog"`. -/
theorem c9_edges_always_splunktcp (parsed : ParsedConfig) (srcHost : Host)
    (now : String) :
    (∀ e ∈ build_edges_from_inputs_outputs parsed srcHost,
      e.protocol = "splunktcp" ∧ e.protocol ≠ "http_event_collector"
        ∧ e.protocol ≠ "tcp" ∧ e.protocol ≠ "udp" ∧ e.protocol ≠ "syslog")
    ∧ (∀ g, build_canonical_graph now parsed = Except.ok g →
        ∀ e ∈ g.edges, e.protocol = "splunktcp") := by
  constructor
  · intro e he
    have hp := build_edges_protocol parsed srcHost e he
    refine ⟨hp, ?_, ?_, ?_, ?_⟩ <;> rw [hp] <;> decide
  · intro g hg e he
    rw [build_canonical_graph] at hg
    by_cases hempty : parsed.inputs.isEmpty && parsed.outputs.isEmpty
    · rw [if_pos hempty] at hg
      cases hg
    · rw [if_neg hempty] at hg
      have hge : g.edges =
          merge_similar_edges
            (build_edges_from_inputs_outputs parsed (build_host parsed)) := by
        cases hg
        rfl
      rw [hge] at he
      exact merge_preserves_protocol
        (build_edges_protocol parsed (build_host parsed)) e he

/-- Concrete input/output pair for the C9 witness: an HTTP input whose
mapping-table protocol would be `http_event_collector`. -/
def c9parsed : ParsedConfig :=
  { inputs := [{ stanza_name := "http://tok", input_type := "http",
                 sourcetype := some "st" }],
    outputs := [{ group_name := "g1", servers := ["idx1:9997"] }] }

/-- The single edge the resolver builds for `c9parsed`. -/
def c9edge : Edge :=
  { src_host := "host_unknown", dst_host := "idx1", protocol := "splunktcp",
    path_kind := "hec", sources := ["http://tok"], sourcetypes := ["st"],
    indexes := ["main"], filters := [], drop_rules := [], tls := some false,
    weight := 1, app_contexts := [], confidence := "explicit" }

/-- C9 witness: the theorem applied to the concrete HTTP-input
configuration and its concrete edge. -/
theorem c9_edges_always_splunktcp_witness :
    c9edge ∈ build_edges_from_inputs_outputs c9parsed (build_host c9parsed)
    ∧ c9edge.protocol = "splunktcp" :=
  ⟨by decide,
   ((c9_edges_always_splunktcp c9parsed (build_host c9parsed) "t").1 c9edge
     (by decide)).1⟩

/-! ## Claim C10 — transform convenience flags -/

/-- The flag cascade only ever produces one of five tuples, each with at
most one `true` component. -/
theorem transformFlags_enum (dk fs : Option String) :
    transformFlags dk fs = (false, false, false, false)
    ∨ transformFlags dk fs = (true, false, false, false)
    ∨ transformFlags dk fs = (false, true, false, false)
    ∨ transformFlags dk fs = (false, false, true, false)
    ∨ transformFlags dk fs = (false, false, false, true) := by
  cases dk with
  | none => left; rfl
  | some d =>
    simp only [transformFlags]
    split_ifs <;>
      first
        | (left; rfl)
        | (right; left; rfl)
        | (right; right; left; rfl)
        | (right; right; right; left; rfl)
        | (right; right; right; right; rfl)

/-- A `queue`/`_tcp_routing` destination whose format is not `nullqueue`
sets no flag at all. -/
theorem transformFlags_not_drop {dk : String} {fs : Option String}
    (hq : strLower dk = "queue" ∨ strLower dk = "_tcp_routing")
    (hnf : ∀ f, fs = some f → strLower f ≠ "nullqueue") :
    transformFlags (some dk) fs = (false, false, false, false) := by
  have hne : ¬ dk = "" := by
    intro h
    subst h
    rcases hq with h | h <;> exact absurd h (by decide)
  rw [transformFlags]
  rw [if_neg hne]
  rcases hq with h | h <;>
    · rw [h]
      cases fs with
      | none => simp [optTruthy]
      | some f => simp [optTruthy, hnf f rfl]

/-- C10: for every `TransformStanza` produced by `parse_transforms_conf`,
at most one of `is_drop`, `is_index_routing`, `is_sourcetype_rewrite`,
`is_host_rewrite` is true; in particular a transform whose `DEST_KEY` is
`queue` or `_tcp_routing` but whose `FORMAT` is not `nullqueue`
(case-insensitively) has all four flags false. -/
theorem c10_transform_flags (wd : WorkDir) :
    ∀ t ∈ parse_transforms_conf wd,
      ([t.is_drop, t.is_index_routing, t.is_sourcetype_rewrite,
          t.is_host_rewrite].count true ≤ 1)
      ∧ (∀ dk, t.dest_key = some dk →
          (strLower dk = "queue" ∨ strLower dk = "_tcp_routing") →
          (∀ f, t.format = some f → strLower f ≠ "nullqueue") →
          t.is_drop = false ∧ t.is_index_routing = false
            ∧ t.is_sourcetype_rewrite = false ∧ t.is_host_rewrite = false) := by
  intro t ht
  rw [parse_transforms_conf, transformsFromMerged] at ht
  obtain ⟨sd, hsd, rfl⟩ := List.mem_map.mp ht
  constructor
  · show ([(transformFlags (getKV sd.2.kvs "DEST_KEY") (getKV sd.2.kvs "FORMAT")).1,
      (transformFlags (getKV sd.2.kvs "DEST_KEY") (getKV sd.2.kvs "FORMAT")).2.1,
      (transformFlags (getKV sd.2.kvs "DEST_KEY") (getKV sd.2.kvs "FORMAT")).2.2.1,
      (transformFlags (getKV sd.2.kvs "DEST_KEY") (getKV sd.2.kvs "FORMAT")).2.2.2].count
        true ≤ 1)
    rcases transformFlags_enum (getKV sd.2.kvs "DEST_KEY") (getKV sd.2.kvs "FORMAT")
      with h | h | h | h | h <;> rw [h] <;> decide
  · intro dk hdk hq hnf
    have hdk' : getKV sd.2.kvs "DEST_KEY" = some dk := hdk
    have hflags : transformFlags (getKV sd.2.kvs "DEST_KEY")
        (getKV sd.2.kvs "FORMAT") = (false, false, false, false) := by
      rw [hdk']
      exact transformFlags_not_drop hq hnf
    refine ⟨?_, ?_, ?_, ?_⟩
    · show (transformFlags (getKV sd.2.kvs "DEST_KEY")
        (getKV sd.2.kvs "FORMAT")).1 = false
      rw [hflags]
    · show (transformFlags (getKV sd.2.kvs "DEST_KEY")
        (getKV sd.2.kvs "FORMAT")).2.1 = false
      rw [hflags]
    · show (transformFlags (getKV sd.2.kvs "DEST_KEY")
        (getKV sd.2.kvs "FORMAT")).2.2.1 = false
      rw [hflags]
    · show (transformFlags (getKV sd.2.kvs "DEST_KEY")
        (getKV sd.2.kvs "FORMAT")).2.2.2 = false
      rw [hflags]

/-- Work directory for the C10 witness: one transforms.conf stanza whose
`DEST_KEY` is `queue` but whose `FORMAT` is `indexQueue`. -/
def c10wd : WorkDir :=
  { systemDefault := some
      { sections := [("route_noise",
          [("DEST_KEY", "queue"), ("FORMAT", "indexQueue"),
           ("REGEX", "noise")])] },
    systemLocal := none, apps := [] }

/-- The transform stanza extracted from `c10wd`. -/
def c10transform : TransformStanza :=
  { stanza_name := "route_noise", regex := some "noise",
    format := some "indexQueue", dest_key := some "queue",
    options := [],
    source_file := "system/default/transforms.conf",
    source_files := ["system/default/transforms.conf"],
    source_apps := [none] }

/-- C10 witness: the theorem applied to `c10wd`'s concrete stanza. -/
theorem c10_transform_flags_witness :
    c10transform ∈ parse_transforms_conf c10wd
    ∧ c10transform.is_drop = false ∧ c10transform.is_index_routing = false
    ∧ c10transform.is_sourcetype_rewrite = false
    ∧ c10transform.is_host_rewrite = false :=
  ⟨by decide,
   (c10_transform_flags c10wd c10transform (by decide)).2 "queue" (by decide)
     (by decide) (by decide)⟩

/-! ## Claim C8 — resolver failure condition -/

/-- C8: `build_canonical_graph` fails if and only if the `ParsedConfig`
has neither inputs nor outputs; with at least one input or output it
returns a canonical graph (the structure holding the `hosts`, `edges` and
`meta` members of the result dict) without failing. -/
theorem c8_resolver_raises_iff_empty (now : String) (parsed : ParsedConfig) :
    ((∃ msg, build_canonical_graph now parsed = Except.error msg)
      ↔ (parsed.inputs = [] ∧ parsed.outputs = []))
    ∧ ((parsed.inputs ≠ [] ∨ parsed.outputs ≠ []) →
        ∃ g, build_canonical_graph now parsed = Except.ok g) := by
  by_cases h : parsed.inputs.isEmpty && parsed.outputs.isEmpty
  · obtain ⟨h1, h2⟩ := Bool.and_eq_true_iff.mp h
    rw [List.isEmpty_iff] at h1 h2
    rw [build_canonical_graph, if_pos h]
    refine ⟨⟨fun _ => ⟨h1, h2⟩, fun _ => ⟨_, rfl⟩⟩, ?_⟩
    rintro (hne | hne)
    · exact absurd h1 hne
    · exact absurd h2 hne
  · rw [build_canonical_graph, if_neg h]
    constructor
    · constructor
      · rintro ⟨msg, hmsg⟩
        cases hmsg
      · rintro ⟨h1, h2⟩
        rw [h1, h2] at h
        exact absurd rfl h
    · intro _
      exact ⟨_, rfl⟩

/-- Parsed configuration for the C8 witness: one input, no outputs. -/
def c8parsed : ParsedConfig :=
  { inputs := [{ stanza_name := "monitor:///var/log/x.log",
                 input_type := "monitor" }] }

/-- C8 witness: the success branch evaluated on a one-input config. -/
theorem c8_resolver_raises_iff_empty_witness :
    (c8parsed.inputs ≠ [] ∨ c8parsed.outputs ≠ [])
    ∧ ∃ g, build_canonical_graph "t" c8parsed = Except.ok g :=
  ⟨by decide,
   (c8_resolver_raises_iff_empty "t" c8parsed).2 (by decide)⟩

/-! ## Claim C3 — permutation invariance of edge merging -/

/-- Boolean `contains` is permutation invariant. -/
theorem contains_eq_perm {α} [BEq α] [LawfulBEq α] {l l' : List α}
    (h : l.Perm l') (a : α) : l.contains a = l'.contains a := by
  cases hc : l'.contains a with
  | true => exact contains_eq_mem.mpr (h.mem_iff.mpr (contains_eq_mem.mp hc))
  | false =>
    cases hc2 : l.contains a with
    | false => rfl
    | true =>
      have hmem := h.mem_iff.mp (contains_eq_mem.mp hc2)
      rw [contains_eq_mem.mpr hmem] at hc
      simp at hc

/-- Boolean `all` is permutation invariant. -/
theorem all_eq_perm {α} {l l' : List α} (h : l.Perm l') (p : α → Bool) :
    l.all p = l'.all p := by
  by_cases hall : ∀ x ∈ l', p x = true
  · rw [List.all_eq_true.mpr hall,
      List.all_eq_true.mpr (fun x hx => hall x (h.mem_iff.mp hx))]
  · have hall2 : ¬ ∀ x ∈ l, p x = true :=
      fun hx => hall (fun x h2 => hx x (h.mem_iff.mpr h2))
    have e1 : l.all p = false := by
      cases hx : l.all p with
      | false => rfl
      | true => exact absurd (List.all_eq_true.mp hx) hall2
    have e2 : l'.all p = false := by
      cases hx : l'.all p with
      | false => rfl
      | true => exact absurd (List.all_eq_true.mp hx) hall
    rw [e1, e2]

/-- Boolean `any` is permutation invariant. -/
theorem any_eq_perm {α} {l l' : List α} (h : l.Perm l') (p : α → Bool) :
    l.any p = l'.any p := by
  by_cases hany : ∃ x ∈ l', p x = true
  · obtain ⟨x, hx, hp⟩ := hany
    rw [List.any_eq_true.mpr ⟨x, h.mem_iff.mpr hx, hp⟩,
      List.any_eq_true.mpr ⟨x, hx, hp⟩]
  · have hany2 : ¬ ∃ x ∈ l, p x = true :=
      fun ⟨x, hx, hp⟩ => hany ⟨x, h.mem_iff.mp hx, hp⟩
    have e1 : l.any p = false := by
      cases hx : l.any p with
      | false => rfl
      | true => exact absurd (List.any_eq_true.mp hx) hany2
    have e2 : l'.any p = false := by
      cases hx : l'.any p with
      | false => rfl
      | true => exact absurd (List.any_eq_true.mp hx) hany
    rw [e1, e2]

/-- The TLS merge depends only on the multiset of values. -/
theorem mergeTls_perm {v v' : List Bool} (h : v.Perm v') :
    mergeTls v = mergeTls v' := by
  rw [mergeTls, mergeTls, h.isEmpty_eq, contains_eq_perm h false, all_eq_perm h]

/-- First-occurrence deduplication maps permutations to permutations. -/
theorem firstDedup_perm {α} [DecidableEq α] {l l' : List α} (h : l.Perm l') :
    (firstDedup l).Perm (firstDedup l') := by
  refine (List.perm_ext_iff_of_nodup nodup_firstDedup nodup_firstDedup).mpr ?_
  intro a
  rw [mem_firstDedup, mem_firstDedup]
  exact h.mem_iff

/-- All the aggregate fields of `mergeGroup` are permutation invariant,
except `filters` which is invariant only up to permutation. -/
theorem mergeGroup_perm_fields {g g' : List Edge} (k : EdgeKey)
    (h : g.Perm g') :
    (mergeGroup k g).sources = (mergeGroup k g').sources
    ∧ (mergeGroup k g).sourcetypes = (mergeGroup k g').sourcetypes
    ∧ (mergeGroup k g).indexes = (mergeGroup k g').indexes
    ∧ (mergeGroup k g).drop_rules = (mergeGroup k g').drop_rules
    ∧ (mergeGroup k g).app_contexts = (mergeGroup k g').app_contexts
    ∧ (mergeGroup k g).tls = (mergeGroup k g').tls
    ∧ (mergeGroup k g).weight = (mergeGroup k g').weight
    ∧ (mergeGroup k g).confidence = (mergeGroup k g').confidence
    ∧ (mergeGroup k g).filters.Perm (mergeGroup k g').filters := by
  refine ⟨?_, ?_, ?_, ?_, ?_, ?_, ?_, ?_, ?_⟩
  · exact sortDedup_eq_of_perm (h.flatMap_right Edge.sources)
  · exact sortDedup_eq_of_perm (h.flatMap_right Edge.sourcetypes)
  · exact sortDedup_eq_of_perm (h.flatMap_right Edge.indexes)
  · exact sortDedup_eq_of_perm (h.flatMap_right Edge.drop_rules)
  · exact sortDedup_eq_of_perm (h.flatMap_right Edge.app_contexts)
  · exact mergeTls_perm (h.filterMap Edge.tls)
  · exact (h.map Edge.weight).sum_eq
  · show (if g.any (fun e => e.confidence == "derived") then "derived"
      else "explicit") = _
    rw [any_eq_perm h]
    rfl
  · exact firstDedup_perm (h.flatMap_right Edge.filters)

/-- Confidence of a merged group is `"derived"` iff some member is. -/
theorem mergeGroup_confidence_iff (k : EdgeKey) (g : List Edge) :
    (mergeGroup k g).confidence = "derived"
      ↔ ∃ e ∈ g, e.confidence = "derived" := by
  show (if g.any (fun e => e.confidence == "derived") then "derived"
    else "explicit") = "derived" ↔ _
  by_cases hany : g.any (fun e => e.confidence == "derived") = true
  · rw [if_pos hany]
    obtain ⟨e, he, hb⟩ := List.any_eq_true.mp hany
    exact ⟨fun _ => ⟨e, he, by simpa using hb⟩, fun _ => rfl⟩
  · rw [if_neg hany]
    constructor
    · intro hderiv
      exact absurd hderiv (by decide)
    · rintro ⟨e, he, hd⟩
      exact absurd (List.any_eq_true.mpr ⟨e, he, by simp [hd]⟩) hany

/-- Edges mapping to a key form its non-empty group. -/
theorem mem_groupOf_of_key {l : List Edge} {e : Edge} {k : EdgeKey}
    (he : e ∈ l) (hk : edgeKey e = k) : e ∈ groupOf l k :=
  List.mem_filter.mpr ⟨he, by simp [hk]⟩

/-- The two concrete edges used by the C3 counterexample (same key,
different filter traces). -/
def c3edgeA : Edge :=
  { src_host := "h", dst_host := "d", protocol := "splunktcp",
    path_kind := "forwarding", filters := ["fa"] }

/-- Second edge of the C3 counterexample. -/
def c3edgeB : Edge :=
  { src_host := "h", dst_host := "d", protocol := "splunktcp",
    path_kind := "forwarding", filters := ["fb"] }

/-- C3 counterexample: `merge_similar_edges` applied to a permutation of
the same two-edge list yields merged edges whose `filters` lists differ
(the source deduplicates filters preserving first-seen order, so the
aggregate `filters` field is not permutation invariant). -/
theorem c3_counterexample :
    ([c3edgeA, c3edgeB].Perm [c3edgeB, c3edgeA])
    ∧ (merge_similar_edges [c3edgeA, c3edgeB]).map Edge.filters = [["fa", "fb"]]
    ∧ (merge_similar_edges [c3edgeB, c3edgeA]).map Edge.filters = [["fb", "fa"]]
    ∧ (merge_similar_edges [c3edgeA, c3edgeB]).map Edge.filters
      ≠ (merge_similar_edges [c3edgeB, c3edgeA]).map Edge.filters :=
  ⟨List.Perm.swap c3edgeB c3edgeA [], by decide, by decide, by decide⟩

/-- C3 (amended): for any permutation of the same edge list, the merged
edge of every key has the same `sources`, `sourcetypes`, `indexes`,
`drop_rules`, `app_contexts`, `tls`, `weight` and `confidence`; its
`filters` contain the same set of entries but only up to order (first-seen
order depends on the input order).  The merged `weight` is the sum of the
members' weights (hence stays at least 1 when all members weigh at least
1), and the merged `confidence` is `"derived"` iff at least one member's
is. -/
theorem c3_merge_perm_invariant (l l' : List Edge) (k : EdgeKey)
    (hp : l.Perm l') :
    ((mergedFor l k).sources = (mergedFor l' k).sources
      ∧ (mergedFor l k).sourcetypes = (mergedFor l' k).sourcetypes
      ∧ (mergedFor l k).indexes = (mergedFor l' k).indexes
      ∧ (mergedFor l k).drop_rules = (mergedFor l' k).drop_rules
      ∧ (mergedFor l k).app_contexts = (mergedFor l' k).app_contexts
      ∧ (mergedFor l k).tls = (mergedFor l' k).tls
      ∧ (mergedFor l k).weight = (mergedFor l' k).weight
      ∧ (mergedFor l k).confidence = (mergedFor l' k).confidence
      ∧ (mergedFor l k).filters.Perm (mergedFor l' k).filters)
    ∧ (mergedFor l k).weight = ((groupOf l k).map Edge.weight).sum
    ∧ ((∀ e ∈ l, 1 ≤ e.weight) → k ∈ l.map edgeKey →
        1 ≤ (mergedFor l k).weight)
    ∧ ((mergedFor l k).confidence = "derived"
        ↔ ∃ e ∈ groupOf l k, e.confidence = "derived") := by
  have hg : (groupOf l k).Perm (groupOf l' k) := hp.filter _
  have hsum : (mergedFor l k).weight = ((groupOf l k).map Edge.weight).sum := by
    rcases mergedFor_cases l k with ⟨e, hge, hm⟩ | hm
    · rw [hm, hge]
      simp
    · rw [hm]
      rfl
  have hconf : (mergedFor l k).confidence = "derived"
      ↔ ∃ e ∈ groupOf l k, e.confidence = "derived" := by
    rcases mergedFor_cases l k with ⟨e, hge, hm⟩ | hm
    · rw [hm, hge]
      constructor
      · intro hd
        exact ⟨e, List.mem_singleton.mpr rfl, hd⟩
      · rintro ⟨e', he', hd⟩
        rw [List.mem_singleton] at he'
        rw [← he']
        exact hd
    · rw [hm]
      exact mergeGroup_confidence_iff k (groupOf l k)
  refine ⟨?_, hsum, ?_, hconf⟩
  · -- field agreement between the two permuted merges
    rcases hcase : groupOf l k with _ | ⟨e0, rest⟩
    · have hg0 : List.Perm [] (groupOf l' k) := hcase ▸ hg
      have hg' : groupOf l' k = [] := hg0.symm.eq_nil
      have hm1 : mergedFor l k = mergeGroup k [] := by rw [mergedFor, hcase]
      have hm2 : mergedFor l' k = mergeGroup k [] := by rw [mergedFor, hg']
      rw [hm1, hm2]
      exact ⟨rfl, rfl, rfl, rfl, rfl, rfl, rfl, rfl, List.Perm.refl _⟩
    · cases rest with
      | nil =>
        have hg' : groupOf l' k = [e0] := by
          have hg0 : List.Perm [e0] (groupOf l' k) := hcase ▸ hg
          exact hg0.symm.eq_singleton
        have hm1 : mergedFor l k = e0 := by rw [mergedFor, hcase]
        have hm2 : mergedFor l' k = e0 := by rw [mergedFor, hg']
        rw [hm1, hm2]
        exact ⟨rfl, rfl, rfl, rfl, rfl, rfl, rfl, rfl, List.Perm.refl _⟩
      | cons e1 rest2 =>
        have hm1 : mergedFor l k = mergeGroup k (groupOf l k) := by
          rw [mergedFor, hcase]
        have hm2 : mergedFor l' k = mergeGroup k (groupOf l' k) := by
          rcases mergedFor_cases l' k with ⟨e, hge, hm⟩ | hm
          · have hlen := hg.length_eq
            rw [hcase, hge] at hlen
            simp at hlen
          · exact hm
        rw [hm1, hm2]
        exact mergeGroup_perm_fields k hg
  · -- merged weight bounded below when all member weights are
    intro hw hk
    obtain ⟨e, he, hke⟩ := List.mem_map.mp hk
    have hmem : e ∈ groupOf l k := mem_groupOf_of_key he hke
    have hle : e.weight ≤ ((groupOf l k).map Edge.weight).sum :=
      List.single_le_sum (fun x _ => Nat.zero_le x) e.weight
        (List.mem_map_of_mem Edge.weight hmem)
    rw [hsum]
    exact le_trans (hw e he) hle

/-- C3 witness: the amended invariance applied to the two-edge group of
the counterexample and its swap. -/
theorem c3_merge_perm_invariant_witness :
    ([c3edgeA, c3edgeB].Perm [c3edgeB, c3edgeA])
    ∧ (mergedFor [c3edgeA, c3edgeB] ("h", "d", "splunktcp", "forwarding")).weight
      = (mergedFor [c3edgeB, c3edgeA] ("h", "d", "splunktcp", "forwarding")).weight :=
  ⟨List.Perm.swap c3edgeB c3edgeA [],
   ((c3_merge_perm_invariant [c3edgeA, c3edgeB] [c3edgeB, c3edgeA]
      ("h", "d", "splunktcp", "forwarding")
      (List.Perm.swap c3edgeB c3edgeA [])).1).2.2.2.2.2.2.1⟩

/-! ## Claim C6 — findings per offending edge -/

/-- Length of the per-edge unknown-index findings: one finding per index
of the edge outside the known set. -/
theorem filterMapIf_length {β} (known : List String) (mk : String → β)
    (l : List String) :
    (l.filterMap (fun idx =>
        if known.contains idx then none else some (mk idx))).length
      = (l.filter (fun idx => !(known.contains idx))).length := by
  induction l with
  | nil => rfl
  | cons a t ih =>
    by_cases h : known.contains a <;>
      simp only [List.filterMap_cons, List.filter_cons, h, if_true, if_false,
        Bool.not_true, Bool.not_false, Bool.false_eq_true, ite_true, ite_false,
        List.length_cons, ih]

/-- Non-placeholder source host of the C6 graph. -/
def c6src : Host := { id := "src1" }

/-- Placeholder destination host of the C6 graph. -/
def c6dst : Host := { id := "ph1", labels := ["placeholder"] }

/-- The single C6 edge, carrying two indexes that never occur on an edge
to a non-placeholder destination. -/
def c6edge : Edge :=
  { src_host := "src1", dst_host := "ph1", protocol := "splunktcp",
    path_kind := "forwarding", indexes := ["idxa", "idxb"] }

/-- The C6 graph: one real host, one placeholder, one edge. -/
def c6graph : CanonicalGraph :=
  { hosts := [c6src, c6dst], edges := [c6edge],
    meta := { generator := "splunk-autodoc-v2.0", generated_at := "t",
              host_count := 2, edge_count := 1 } }

/-- C6 counterexample: `validate_graph` emits two `UNKNOWN_INDEX`
findings whose context refers to the single edge of `c6graph` (one per
unknown index), so the UNKNOWN_INDEX rule does not emit at most one
finding per offending edge. -/
theorem c6_counterexample :
    c6graph.edges = [c6edge]
    ∧ ((validate_graph c6graph).filter (fun f =>
        f.code == "UNKNOWN_INDEX" && f.ctxSrc == "src1"
          && f.ctxDst == "ph1")).length = 2 := by
  constructor
  · rfl
  · decide

/-- C6 (amended): `validate_graph` is the concatenation of the five
rules' per-edge contributions; for every edge, the `DANGLING_OUTPUT`,
`UNSECURED_PIPE`, `DROP_PATH` and `AMBIGUOUS_GROUP` rules each contribute
at most one finding, while `UNKNOWN_INDEX` contributes exactly one
finding per index of the edge outside the known-index set (so possibly
several per edge). -/
theorem c6_per_edge_findings (g : CanonicalGraph) :
    (validate_graph g = []
      ∨ validate_graph g =
          detect_dangling_outputs g.hosts g.edges
            ++ detect_unknown_indexes g.edges
                (collect_known_indexes g.edges (get_placeholder_host_ids g.hosts))
            ++ detect_unsecured_pipes g.edges
            ++ detect_drop_paths g.edges
            ++ detect_ambiguous_groups g.edges)
    ∧ ∀ e ∈ g.edges,
        (danglingPerEdge (get_placeholder_host_ids g.hosts) e).length ≤ 1
        ∧ (unsecuredPerEdge e).length ≤ 1
        ∧ (dropPerEdge e).length ≤ 1
        ∧ (ambiguousPerEdge e).length ≤ 1
        ∧ (unknownPerEdge
            (collect_known_indexes g.edges (get_placeholder_host_ids g.hosts))
            e).length
          = (e.indexes.filter (fun idx =>
              !((collect_known_indexes g.edges
                  (get_placeholder_host_ids g.hosts)).contains idx))).length := by
  constructor
  · rw [validate_graph]
    by_cases h : g.hosts.isEmpty && g.edges.isEmpty
    · rw [if_pos h]
      exact Or.inl rfl
    · rw [if_neg h]
      exact Or.inr rfl
  · intro e _
    refine ⟨?_, ?_, ?_, ?_, ?_⟩
    · rw [danglingPerEdge]
      split <;> simp
    · rw [unsecuredPerEdge]
      split <;> simp
    · rw [dropPerEdge]
      split <;> simp
    · rw [ambiguousPerEdge]
      split <;> simp
    · exact filterMapIf_length _ _ e.indexes

/-- C6 witness: the per-edge bounds evaluated on the concrete C6 edge. -/
theorem c6_per_edge_findings_witness :
    c6edge ∈ c6graph.edges
    ∧ (unknownPerEdge
        (collect_known_indexes c6graph.edges
          (get_placeholder_host_ids c6graph.hosts)) c6edge).length
      = (c6edge.indexes.filter (fun idx =>
          !((collect_known_indexes c6graph.edges
              (get_placeholder_host_ids c6graph.hosts)).contains idx))).length :=
  ⟨by decide,
   (((c6_per_edge_findings c6graph).2 c6edge (by decide)).2.2.2.2)⟩

/-! ## Claim C7 — transform-loop termination and visited set -/

/-- The loop returns after at most `fuel` additional iterations. -/
theorem transformLoopGo_iter_le (i : InputStanza) (props : List PropsStanza)
    (transforms : List TransformStanza) :
    ∀ (fuel : Nat) (st : TransformAcc) (iters : Nat),
      (transformLoopGo i props transforms fuel st iters).2 ≤ iters + fuel := by
  intro fuel
  induction fuel with
  | zero => intro st iters; exact Nat.le_refl _
  | succ n ih =>
    intro st iters
    rw [transformLoopGo]
    by_cases hm : (matchingPropsFor i props st.processed st.curS).isEmpty
    · simp only [hm, if_true]
      omega
    · simp only [hm, Bool.false_eq_true, if_false]
      by_cases hc : ((matchingPropsFor i props st.processed st.curS).foldl
          (processProp transforms) { st with changed := false }).changed
      · simp only [hc, if_true]
        calc (transformLoopGo i props transforms n _ (iters + 1)).2
            ≤ (iters + 1) + n := ih _ _
          _ = iters + (n + 1) := by omega
      · simp only [hc, Bool.false_eq_true, if_false]
        omega

/-- Duplicate-combination props for the C7 counterexample: the plain
stanza `A` and the stanza `sourcetype::A` both classify as
`(sourcetype, "A")`. -/
def c7prop1 : PropsStanza :=
  { stanza_name := "A", stanza_type := "sourcetype", stanza_value := "A",
    transforms := ["route_t"] }

/-- Second stanza of the duplicate pair. -/
def c7prop2 : PropsStanza :=
  { stanza_name := "sourcetype::A", stanza_type := "sourcetype",
    stanza_value := "A", transforms := ["route_t"] }

/-- Index-routing transform referenced by both duplicate stanzas. -/
def c7transform : TransformStanza :=
  { stanza_name := "route_t", format := some "errors",
    dest_key := some "_MetaData:Index", is_index_routing := true }

/-- Input stanza whose sourcetype matches the duplicate pair. -/
def c7input : InputStanza :=
  { stanza_name := "monitor:///l", input_type := "monitor",
    sourcetype := some "A" }

/-- C7 counterexample: with two props stanzas sharing the combination
`(sourcetype, "A")`, the combination is processed twice in the same
iteration (the processed-set check happens only when matches are
computed, and both stanzas were matched before either was marked), so an
already-processed combination is evaluated again — visible both in the
duplicated processed-trace entry and in the duplicated filter trace. -/
theorem c7_counterexample :
    ¬ ((transformEval c7input [c7prop1, c7prop2] [c7transform]).1.trace).Nodup
    ∧ (transformEval c7input [c7prop1, c7prop2] [c7transform]).1.trace
      = [("sourcetype", "A", some "A"), ("sourcetype", "A", some "A")]
    ∧ (apply_transforms_to_index c7input [c7prop1, c7prop2] [c7transform]).2.1
      = ["TRANSFORMS:route_t", "TRANSFORMS:route_t"] :=
  ⟨by decide, by decide, by decide⟩

/-- Back-and-forth rewrite pair: props for sourcetype `A`. -/
def c7propA : PropsStanza :=
  { stanza_name := "sourcetype::A", stanza_type := "sourcetype",
    stanza_value := "A", transforms := ["toB"] }

/-- Back-and-forth rewrite pair: props for sourcetype `B`. -/
def c7propB : PropsStanza :=
  { stanza_name := "sourcetype::B", stanza_type := "sourcetype",
    stanza_value := "B", transforms := ["toA"] }

/-- Sourcetype rewrite `A → B`. -/
def c7toB : TransformStanza :=
  { stanza_name := "toB", format := some "B",
    dest_key := some "_MetaData:Sourcetype", is_sourcetype_rewrite := true }

/-- Sourcetype rewrite `B → A`. -/
def c7toA : TransformStanza :=
  { stanza_name := "toA", format := some "A",
    dest_key := some "_MetaData:Sourcetype", is_sourcetype_rewrite := true }

/-- Input for the back-and-forth scenario. -/
def c7inputA : InputStanza :=
  { stanza_name := "monitor:///l2", input_type := "monitor",
    sourcetype := some "A" }

/-- C7 (amended): `apply_transforms_to_index` is total and its loop runs
at most 10 iterations; a props stanza whose
`(stanza_type, stanza_value, current sourcetype)` combination is already
in the processed set is excluded when matches are computed (though a
combination can still be evaluated more than once when two distinct
stanzas share it); and the crafted back-and-forth sourcetype-rewrite pair
terminates after 3 iterations, within the bound, returning the
accumulated `(indexes, filters, drop_rules)` result. -/
theorem c7_transform_loop (i : InputStanza) (props : List PropsStanza)
    (transforms : List TransformStanza) :
    ((transformEval i props transforms).2 ≤ 10)
    ∧ (∀ (processed : List PropKey) (curS : Option String),
        ∀ mp ∈ matchingPropsFor i props processed curS,
          (mp.2.stanza_type, mp.2.stanza_value, curS) ∉ processed)
    ∧ (transformEval c7inputA [c7propA, c7propB] [c7toB, c7toA]).2 = 3
    ∧ apply_transforms_to_index c7inputA [c7propA, c7propB] [c7toB, c7toA]
      = (["main"], ["SOURCETYPE_REWRITE:toB", "SOURCETYPE_REWRITE:toA"], []) := by
  refine ⟨?_, ?_, by decide, by decide⟩
  · exact transformLoopGo_iter_le i props transforms 10 _ 0
  · intro processed curS mp hmp
    have hc : mp ∈ props.filterMap (fun p =>
        if processed.contains (p.stanza_type, p.stanza_value, curS) then none
        else (propMatches i curS p).map (fun mt => (mt, p))) := by
      simp only [matchingPropsFor, List.mem_append, List.mem_filter] at hmp
      rcases hmp with (⟨h, -⟩ | ⟨h, -⟩) | ⟨h, -⟩ <;> exact h
    obtain ⟨p, hp, heq⟩ := List.mem_filterMap.mp hc
    by_cases hcon : processed.contains (p.stanza_type, p.stanza_value, curS)
    · rw [if_pos hcon] at heq
      cases heq
    · rw [if_neg hcon] at heq
      obtain ⟨mt, -, rfl⟩ := Option.map_eq_some'.mp heq
      intro hmem
      exact hcon (contains_eq_mem.mpr hmem)

/-- C7 witness: the bound and the skip property evaluated concretely —
after the first iteration marks `(sourcetype, A, A)` as processed, the
matching phase over the same props no longer matches `c7propA`. -/
theorem c7_transform_loop_witness :
    (transformEval c7input [c7prop1, c7prop2] [c7transform]).2 ≤ 10
    ∧ (("sourcetype", "A", some "A") : PropKey)
      ∈ [(("sourcetype", "A", some "A") : PropKey)]
    ∧ matchingPropsFor c7inputA [c7propA, c7propB]
        [("sourcetype", "A", some "A")] (some "A") = [] :=
  ⟨(c7_transform_loop c7input [c7prop1, c7prop2] [c7transform]).1,
   by decide, by decide⟩

/-! ## Claim C5 — redaction law -/

/-- Sensitivity of a key (case-insensitive membership in the fixed set). -/
def isSensitive (k : String) : Bool := SENSITIVE_KEYS.contains (strLower k)

/-- All-sensitive-values-redacted property of one stanza's dict. -/
def kvsRedacted (kvs : List (String × String)) : Prop :=
  ∀ kv ∈ kvs, isSensitive kv.1 = true → kv.2 = REDACTED

/-- An entry of an updated dict is an old entry or the new pair. -/
theorem mem_setKV {l : List (String × String)} {k v : String}
    {kv : String × String} (h : kv ∈ setKV l k v) : kv ∈ l ∨ kv = (k, v) := by
  induction l with
  | nil =>
    rw [setKV] at h
    exact Or.inr (List.mem_singleton.mp h)
  | cons p rest ih =>
    rw [setKV] at h
    by_cases hk : p.1 = k
    · rw [if_pos hk] at h
      rcases List.mem_cons.mp h with rfl | hm
      · right
        rw [hk]
      · exact Or.inl (List.mem_cons_of_mem p hm)
    · rw [if_neg hk] at h
      rcases List.mem_cons.mp h with rfl | hm
      · exact Or.inl (List.mem_cons_self _ _)
      · rcases ih hm with h1 | h1
        · exact Or.inl (List.mem_cons_of_mem p h1)
        · exact Or.inr h1

/-- A lookup hit is a member of the association list. -/
theorem mem_of_getKV {l : List (String × String)} {k v : String}
    (h : getKV l k = some v) : (k, v) ∈ l := by
  induction l with
  | nil => cases h
  | cons p rest ih =>
    rw [getKV] at h
    by_cases hk : p.1 = k
    · rw [if_pos hk] at h
      cases h
      have : p = (k, p.2) := by
        cases p
        simpa using hk
      rw [← this]
      exact List.mem_cons_self _ _
    · rw [if_neg hk] at h
      exact List.mem_cons_of_mem p (ih h)

/-- Folding redacted insertions preserves the redaction property. -/
theorem kvsRedacted_fold {pairs : List (String × String)} :
    ∀ {kvs0 : List (String × String)}, kvsRedacted kvs0 →
      kvsRedacted (pairs.foldl
        (fun acc kv => setKV acc kv.1 (redact_sensitive_value kv.1 kv.2)) kvs0) := by
  induction pairs with
  | nil => intro kvs0 h; exact h
  | cons p rest ih =>
    intro kvs0 h
    rw [List.foldl_cons]
    refine ih ?_
    intro kv hkv hs
    rcases mem_setKV hkv with hm | rfl
    · exact h kv hm hs
    · show redact_sensitive_value p.1 p.2 = REDACTED
      have hs' : SENSITIVE_KEYS.contains (strLower p.1) = true := hs
      rw [redact_sensitive_value, if_pos hs']

/-- Redaction property of every stanza in a merged dict. -/
def mergedRedacted (m : List (String × StanzaData)) : Prop :=
  ∀ sd ∈ m, kvsRedacted sd.2.kvs

/-- The freshly created stanza is trivially redacted. -/
theorem kvsRedacted_empty : kvsRedacted emptyStanza.kvs := by
  intro kv hkv
  cases hkv

/-- Merging one section into a redacted stanza keeps it redacted. -/
theorem kvsRedacted_mergeSection {fc : FoundConf}
    {pairs : List (String × String)} {d : StanzaData}
    (hd : kvsRedacted d.kvs) : kvsRedacted (mergeSection fc pairs d).kvs :=
  kvsRedacted_fold hd

/-- Updating one stanza with a property-preserving function keeps the
whole dict redacted. -/
theorem mergedRedacted_setStanza {m : List (String × StanzaData)} {s : String}
    {f : StanzaData → StanzaData} (hm : mergedRedacted m)
    (hf : ∀ d, kvsRedacted d.kvs → kvsRedacted (f d).kvs) :
    mergedRedacted (setStanza m s f) := by
  induction m with
  | nil =>
    intro sd hsd
    rw [setStanza] at hsd
    rw [List.mem_singleton.mp hsd]
    exact hf _ kvsRedacted_empty
  | cons p rest ih =>
    intro sd hsd
    rw [setStanza] at hsd
    by_cases hk : p.1 = s
    · rw [if_pos hk] at hsd
      rcases List.mem_cons.mp hsd with rfl | hmem
      · exact hf _ (hm p (List.mem_cons_self _ _))
      · exact hm sd (List.mem_cons_of_mem p hmem)
    · rw [if_neg hk] at hsd
      rcases List.mem_cons.mp hsd with rfl | hmem
      · exact hm p (List.mem_cons_self _ _)
      · exact ih (fun x hx => hm x (List.mem_cons_of_mem p hx)) sd hmem

/-- Folding the sections of one file keeps the dict redacted. -/
theorem mergedRedacted_sections {fc : FoundConf} :
    ∀ (secs : List (String × List (String × String)))
      {m : List (String × StanzaData)}, mergedRedacted m →
      mergedRedacted (secs.foldl
        (fun acc sec => setStanza acc sec.1 (mergeSection fc sec.2)) m) := by
  intro secs
  induction secs with
  | nil => intro m h; exact h
  | cons sec rest ih =>
    intro m h
    rw [List.foldl_cons]
    exact ih (mergedRedacted_setStanza h (fun d hd => kvsRedacted_mergeSection hd))

/-- Every stanza value stored by `merge_conf_layers` under a sensitive key
is the redaction sentinel. -/
theorem merge_conf_layers_redacted (files : List FoundConf) :
    mergedRedacted (merge_conf_layers files) := by
  rw [merge_conf_layers]
  have hgen : ∀ (fs : List FoundConf) (m : List (String × StanzaData)),
      mergedRedacted m → mergedRedacted (fs.foldl mergeFileInto m) := by
    intro fs
    induction fs with
    | nil => intro m h; exact h
    | cons fc rest ih =>
      intro m h
      rw [List.foldl_cons]
      exact ih _ (mergedRedacted_sections fc.file.sections h)
  exact hgen files [] (fun sd hsd => absurd hsd (List.not_mem_nil sd))

/-- Filtered residual options inherit the redaction property. -/
theorem kvsRedacted_filter {kvs : List (String × String)}
    (h : kvsRedacted kvs) (p : String × String → Bool) :
    kvsRedacted (kvs.filter p) :=
  fun kv hkv hs => h kv (List.mem_filter.mp hkv).1 hs

/-- A double lookup hit comes from one of the two keys. -/
theorem getKVOr_cases {kvs : List (String × String)} {k1 k2 v : String}
    (h : getKVOr kvs k1 k2 = some v) :
    getKV kvs k1 = some v ∨ getKV kvs k2 = some v := by
  rw [getKVOr] at h
  cases hk : getKV kvs k1 with
  | some w =>
    rw [hk] at h
    exact Or.inl h
  | none =>
    rw [hk] at h
    exact Or.inr h

/-- A sensitive value surviving into a lookup is the sentinel. -/
theorem getKV_sensitive_redacted {kvs : List (String × String)} {k v : String}
    (h : kvsRedacted kvs) (hk : getKV kvs k = some v)
    (hs : isSensitive k = true) : v = REDACTED :=
  h (k, v) (mem_of_getKV hk) hs

/-- A per-server override lookup hit is a member of the override list. -/
theorem mem_of_lookupOv
    {overrides : List (String × List (String × String))}
    {srv : String} {settings : List (String × String)}
    (h : attachServerOverrides.lookupOv overrides srv = some settings) :
    (srv, settings) ∈ overrides := by
  induction overrides with
  | nil => cases h
  | cons p rest ih =>
    rw [attachServerOverrides.lookupOv] at h
    by_cases hk : p.1 = srv
    · rw [if_pos hk] at h
      cases h
      have : p = (srv, p.2) := by
        cases p
        simpa using hk
      rw [← this]
      exact List.mem_cons_self _ _
    · rw [if_neg hk] at h
      exact List.mem_cons_of_mem p (ih h)

/-- A discovery-map lookup hit is a member of the map. -/
theorem mem_of_getDisc {dm : List (String × DiscoveryDetails)} {nm : String}
    {dd : DiscoveryDetails} (h : mkOutputGroup.getDisc dm nm = some dd) :
    (nm, dd) ∈ dm := by
  induction dm with
  | nil => cases h
  | cons p rest ih =>
    rw [mkOutputGroup.getDisc] at h
    by_cases hk : p.1 = nm
    · rw [if_pos hk] at h
      cases h
      have : p = (nm, p.2) := by
        cases p
        simpa using hk
      rw [← this]
      exact List.mem_cons_self _ _
    · rw [if_neg hk] at h
      exact List.mem_cons_of_mem p (ih h)

/-- Attaching server overrides leaves `options` unchanged. -/
theorem attach_options_eq (ov : List (String × List (String × String)))
    (g : OutputGroup) : (attachServerOverrides ov g).options = g.options := rfl

/-- Attaching server overrides leaves `discovery_details` unchanged. -/
theorem attach_discovery_eq (ov : List (String × List (String × String)))
    (g : OutputGroup) :
    (attachServerOverrides ov g).discovery_details = g.discovery_details := rfl

/-- Per-server settings attached to a group come from the override map. -/
theorem attach_per_server_mem
    {ov : List (String × List (String × String))} {g : OutputGroup}
    {po : String × List (String × String)}
    (hpo : po ∈ (attachServerOverrides ov g).per_server_options) :
    ∃ x ∈ ov, x.2 = po.2 := by
  have hpo' : po ∈ g.servers.filterMap (fun srv =>
      match attachServerOverrides.lookupOv ov srv with
      | some settings => some (srv, settings)
      | none => none) := hpo
  obtain ⟨srv, -, hmv⟩ := List.mem_filterMap.mp hpo'
  cases h2 : attachServerOverrides.lookupOv ov srv with
  | none =>
    rw [h2] at hmv
    cases hmv
  | some st =>
    rw [h2] at hmv
    cases hmv
    exact ⟨(srv, st), mem_of_lookupOv h2, rfl⟩

/-- The residual options of an extracted output group are redacted. -/
theorem mkOutputGroup_options_redacted (dg : Option String)
    (dm : List (String × DiscoveryDetails)) (nm : String) (d : StanzaData)
    (hred : kvsRedacted d.kvs) :
    kvsRedacted (mkOutputGroup dg dm nm d).options := by
  intro kv hkv hs
  have hkv' : kv ∈ (match getKV d.kvs "sslVerifyServerCert" with
    | some v => setKV (d.kvs.filter
        (fun kv2 => ¬ outputsConsumedKeys.contains kv2.1)) "sslVerifyServerCert" v
    | none => d.kvs.filter
        (fun kv2 => ¬ outputsConsumedKeys.contains kv2.1)) := hkv
  cases hv : getKV d.kvs "sslVerifyServerCert" with
  | none =>
    rw [hv] at hkv'
    exact kvsRedacted_filter hred _ kv hkv' hs
  | some v =>
    rw [hv] at hkv'
    rcases mem_setKV hkv' with hm | rfl
    · exact kvsRedacted_filter hred _ kv hm hs
    · exact absurd (show isSensitive "sslVerifyServerCert" = true from hs)
        (by decide)

/-- The discovery details attached to a group come from the map. -/
theorem mkOutputGroup_discovery_mem {dg : Option String}
    {dm : List (String × DiscoveryDetails)} {nm : String} {d : StanzaData}
    {dd : DiscoveryDetails}
    (hdd : (mkOutputGroup dg dm nm d).discovery_details = some dd) :
    ∃ x ∈ dm, x.2 = dd := by
  have hdd' : (match getKV d.kvs "indexerDiscovery" with
    | some nm2 => if nm2 ≠ "" then mkOutputGroup.getDisc dm nm2 else none
    | none => none) = some dd := hdd
  cases hid : getKV d.kvs "indexerDiscovery" with
  | none =>
    rw [hid] at hdd'
    cases hdd'
  | some idn =>
    rw [hid] at hdd'
    have hdd2 : (if idn ≠ "" then mkOutputGroup.getDisc dm idn else none)
        = some dd := hdd'
    by_cases hne : idn ≠ ""
    · rw [if_pos hne] at hdd2
      exact ⟨(idn, dd), mem_of_getDisc hdd2, rfl⟩
    · rw [if_neg hne] at hdd2
      cases hdd2

/-- The sensitive discovery fields of an extracted discovery map entry
are redacted. -/
theorem mkDiscovery_redacted {d : StanzaData} (hred : kvsRedacted d.kvs) :
    ((mkDiscovery d).pass4SymmKey = none
      ∨ (mkDiscovery d).pass4SymmKey = some REDACTED)
    ∧ ((mkDiscovery d).sslPassword = none
      ∨ (mkDiscovery d).sslPassword = some REDACTED) := by
  constructor
  · show getKVOr d.kvs "pass4SymmKey" "pass4symmkey" = none ∨
      getKVOr d.kvs "pass4SymmKey" "pass4symmkey" = some REDACTED
    cases hv : getKVOr d.kvs "pass4SymmKey" "pass4symmkey" with
    | none => exact Or.inl rfl
    | some v =>
      right
      rcases getKVOr_cases hv with h | h <;>
        rw [getKV_sensitive_redacted hred h (by decide)]
  · show getKVOr d.kvs "sslPassword" "sslpassword" = none ∨
      getKVOr d.kvs "sslPassword" "sslpassword" = some REDACTED
    cases hv : getKVOr d.kvs "sslPassword" "sslpassword" with
    | none => exact Or.inl rfl
    | some v =>
      right
      rcases getKVOr_cases hv with h | h <;>
        rw [getKV_sensitive_redacted hred h (by decide)]

/-- C5: every value stored under a key of the case-insensitive
sensitive-key set — in the merged stanza dict, and in every residual
`options`, per-server-override and indexer-discovery field of the four
typed extractors — is the redaction sentinel, never the configured
literal. -/
theorem c5_redaction_law (files : List FoundConf) (wd : WorkDir) :
    (∀ sd ∈ merge_conf_layers files, ∀ kv ∈ sd.2.kvs,
        isSensitive kv.1 = true → kv.2 = REDACTED)
    ∧ (∀ t ∈ parse_transforms_conf wd, ∀ kv ∈ t.options,
        isSensitive kv.1 = true → kv.2 = REDACTED)
    ∧ (∀ i ∈ parse_inputs_conf wd, ∀ kv ∈ i.options,
        isSensitive kv.1 = true → kv.2 = REDACTED)
    ∧ (∀ p ∈ parse_props_conf wd, ∀ kv ∈ p.options,
        isSensitive kv.1 = true → kv.2 = REDACTED)
    ∧ (∀ og ∈ parse_outputs_conf wd,
        (∀ kv ∈ og.options, isSensitive kv.1 = true → kv.2 = REDACTED)
        ∧ (∀ po ∈ og.per_server_options, ∀ kv ∈ po.2,
            isSensitive kv.1 = true → kv.2 = REDACTED)
        ∧ (∀ dd, og.discovery_details = some dd →
            (dd.pass4SymmKey = none ∨ dd.pass4SymmKey = some REDACTED)
            ∧ (dd.sslPassword = none ∨ dd.sslPassword = some REDACTED))) := by
  refine ⟨merge_conf_layers_redacted files, ?_, ?_, ?_, ?_⟩
  · intro t ht
    rw [parse_transforms_conf, transformsFromMerged] at ht
    obtain ⟨sd, hsd, rfl⟩ := List.mem_map.mp ht
    exact kvsRedacted_filter
      (merge_conf_layers_redacted (find_conf_files wd "transforms.conf") sd hsd) _
  · intro i hi
    rw [parse_inputs_conf, inputsFromMerged] at hi
    obtain ⟨sd, hsd, rfl⟩ := List.mem_map.mp hi
    exact kvsRedacted_filter
      (merge_conf_layers_redacted (find_conf_files wd "inputs.conf") sd hsd) _
  · intro p hp
    rw [parse_props_conf, propsFromMerged] at hp
    obtain ⟨sd, hsd, rfl⟩ := List.mem_map.mp hp
    exact kvsRedacted_filter
      (merge_conf_layers_redacted (find_conf_files wd "props.conf") sd hsd) _
  · intro og hog
    rw [parse_outputs_conf] at hog
    simp only [outputsFromMerged] at hog
    obtain ⟨g0, hg0, rfl⟩ := List.mem_map.mp hog
    obtain ⟨sd, hsd, hmk⟩ := List.mem_filterMap.mp hg0
    obtain ⟨nm, -, rfl⟩ := Option.map_eq_some'.mp hmk
    have hred : kvsRedacted sd.2.kvs :=
      merge_conf_layers_redacted (find_conf_files wd "outputs.conf") sd hsd
    refine ⟨?_, ?_, ?_⟩
    · intro kv hkv hs
      rw [attach_options_eq] at hkv
      exact mkOutputGroup_options_redacted _ _ _ _ hred kv hkv hs
    · intro po hpo kv hkv hs
      obtain ⟨x, hx, hx2⟩ := attach_per_server_mem hpo
      obtain ⟨sd2, hsd2, hm2⟩ := List.mem_filterMap.mp hx
      obtain ⟨srv2, -, rfl⟩ := Option.map_eq_some'.mp hm2
      rw [← hx2] at hkv
      exact merge_conf_layers_redacted (find_conf_files wd "outputs.conf")
        sd2 hsd2 kv hkv hs
    · intro dd hdd
      rw [attach_discovery_eq] at hdd
      obtain ⟨x, hx, hx2⟩ := mkOutputGroup_discovery_mem hdd
      obtain ⟨sd3, hsd3, hm3⟩ := List.mem_filterMap.mp hx
      obtain ⟨nm3, -, rfl⟩ := Option.map_eq_some'.mp hm3
      rw [← hx2]
      exact mkDiscovery_redacted
        (merge_conf_layers_redacted (find_conf_files wd "outputs.conf") sd3 hsd3)

/-- Concrete outputs.conf for the C5 witness: a tcpout group with a
literal `sslPassword` value across two layers. -/
def c5wd : WorkDir :=
  { systemDefault := some
      { sections := [("tcpout:grp",
          [("server", "idx1:9997"), ("sslPassword", "hunter2")])] },
    systemLocal := some
      { sections := [("tcpout:grp", [("sslPassword", "hunter3")])] },
    apps := [] }

/-- The merged stanza data produced for `c5wd`. -/
def c5stanza : StanzaData :=
  { kvs := [("server", "idx1:9997"), ("sslPassword", REDACTED)],
    source_files := ["system/default/outputs.conf", "system/local/outputs.conf"],
    source_apps := [none, none],
    source_file := "system/local/outputs.conf",
    source_app := none }

/-- C5 witness: the redaction law applied to the concrete merged stanza
value of `sslPassword`. -/
theorem c5_redaction_law_witness :
    ("tcpout:grp", c5stanza) ∈ merge_conf_layers (find_conf_files c5wd "outputs.conf")
    ∧ ("sslPassword", REDACTED) ∈ c5stanza.kvs
    ∧ isSensitive "sslPassword" = true
    ∧ REDACTED = REDACTED :=
  ⟨by decide, by decide, by decide,
   (c5_redaction_law (find_conf_files c5wd "outputs.conf") c5wd).1
     ("tcpout:grp", c5stanza) (by decide) ("sslPassword", REDACTED)
     (by decide) (by decide)⟩

/-! ## Claim C4 — precedence law

The merge is characterized by `lastSome`: a left fold that keeps the last
hit of an option-valued function.  `merge_conf_layers` stores, for each
stanza key, the redacted value from the last file defining it, and the
source metadata of the last file containing the stanza. -/

/-- The last hit of `f` over `l` (later elements override earlier ones). -/
def lastSome {α β} (f : α → Option β) (l : List α) : Option β :=
  l.foldl (fun acc x =>
    match f x with
    | some v => some v
    | none => acc) none

/-- Accumulator-override property of the `lastSome` fold. -/
theorem lastSome_acc {α β} (f : α → Option β) :
    ∀ (l : List α) (a : Option β),
      l.foldl (fun acc x =>
        match f x with
        | some v => some v
        | none => acc) a
      = match lastSome f l with
        | some v => some v
        | none => a := by
  intro l
  induction l with
  | nil => intro a; rfl
  | cons x rest ih =>
    intro a
    have h2 : lastSome f (x :: rest)
        = match lastSome f rest with
          | some v => some v
          | none => match f x with
            | some v => some v
            | none => none := by
      rw [lastSome, List.foldl_cons, ih]
    rw [List.foldl_cons, ih, h2]
    cases hr : lastSome f rest with
    | some w => rfl
    | none =>
      cases hf : f x with
      | some v => simp only [hf]
      | none => simp only [hf]

/-- Unfolding `lastSome` on a cons cell. -/
theorem lastSome_cons {α β} (f : α → Option β) (x : α) (l : List α) :
    lastSome f (x :: l)
      = match lastSome f l with
        | some v => some v
        | none => f x := by
  rw [lastSome, List.foldl_cons, lastSome_acc]
  cases lastSome f l with
  | some w => rfl
  | none => cases f x <;> rfl

/-- A `lastSome` hit comes from a member of the list. -/
theorem lastSome_eq_some_mem {α β} {f : α → Option β} :
    ∀ {l : List α} {v : β}, lastSome f l = some v → ∃ x ∈ l, f x = some v := by
  intro l
  induction l with
  | nil => intro v h; cases h
  | cons x rest ih =>
    intro v h
    rw [lastSome, List.foldl_cons, lastSome_acc] at h
    cases hr : lastSome f rest with
    | some w =>
      rw [hr] at h
      obtain ⟨y, hy, hfy⟩ := ih hr
      cases h
      exact ⟨y, List.mem_cons_of_mem x hy, hfy⟩
    | none =>
      rw [hr] at h
      cases hf : f x with
      | some w =>
        rw [hf] at h
        cases h
        exact ⟨x, List.mem_cons_self _ _, hf⟩
      | none =>
        rw [hf] at h
        cases h

/-- `lastSome` hits whenever some member hits. -/
theorem lastSome_isSome_of_mem {α β} {f : α → Option β} :
    ∀ {l : List α} {x : α} {v : β}, x ∈ l → f x = some v →
      ∃ w, lastSome f l = some w := by
  intro l
  induction l with
  | nil => intro x v h; cases h
  | cons y rest ih =>
    intro x v hx hf
    rw [lastSome, List.foldl_cons, lastSome_acc]
    rcases List.mem_cons.mp hx with rfl | hx'
    · cases hr : lastSome f rest with
      | some w => exact ⟨w, rfl⟩
      | none =>
        rw [hf]
        exact ⟨v, rfl⟩
    · obtain ⟨w, hw⟩ := ih hx' hf
      rw [hw]
      exact ⟨w, rfl⟩

/-- `lastSome` over an append: the right block overrides the left. -/
theorem lastSome_append {α β} (f : α → Option β) (l₁ l₂ : List α) :
    lastSome f (l₁ ++ l₂)
      = match lastSome f l₂ with
        | some v => some v
        | none => lastSome f l₁ := by
  rw [lastSome, List.foldl_append, ← lastSome]
  exact lastSome_acc f l₂ (lastSome f l₁)

/-- The last value of a key within one section's pair list. -/
@[reducible] def lastKV (kvs : List (String × String)) (k : String) : Option String :=
  lastSome (fun kv => if kv.1 = k then some kv.2 else none) kvs

/-- The last value of a key among a file's sections named `s`. -/
@[reducible] def lastInFile (fc : FoundConf) (s k : String) : Option String :=
  lastSome (fun sec => if sec.1 = s then lastKV sec.2 k else none)
    fc.file.sections

/-- Whether a file contains a section named `s`. -/
def fileHasSection (fc : FoundConf) (s : String) : Bool :=
  fc.file.sections.any (fun sec => sec.1 == s)

/-- The merged value of key `k` in stanza `s`. -/
def stanzaValue (m : List (String × StanzaData)) (s k : String) :
    Option String :=
  (getStanza m s).bind (fun d => getKV d.kvs k)

/-- The merged `_source_file`/`_source_app` metadata of stanza `s`. -/
def stanzaMeta (m : List (String × StanzaData)) (s : String) :
    Option (String × Option String) :=
  (getStanza m s).map (fun d => (d.source_file, d.source_app))

/-- Lookup after a dict update. -/
theorem getKV_setKV (l : List (String × String)) (k1 v k : String) :
    getKV (setKV l k1 v) k = if k1 = k then some v else getKV l k := by
  induction l with
  | nil =>
    by_cases h : k1 = k <;> simp [setKV, getKV, h]
  | cons p rest ih =>
    obtain ⟨k', v'⟩ := p
    by_cases hp : k' = k1
    · subst hp
      by_cases hk : k' = k
      · simp [setKV, getKV, hk]
      · simp [setKV, getKV, hk]
    · by_cases hk : k' = k
      · subst hk
        have hne : ¬ k1 = k' := fun h => hp h.symm
        simp [setKV, getKV, hp, hne, ih]
      · simp [setKV, getKV, hp, hk, ih]

/-- Stanza lookup after a stanza update. -/
theorem getStanza_setStanza (m : List (String × StanzaData)) (s : String)
    (f : StanzaData → StanzaData) (s' : String) :
    getStanza (setStanza m s f) s'
      = if s = s' then some (f ((getStanza m s).getD emptyStanza))
        else getStanza m s' := by
  induction m with
  | nil =>
    by_cases h : s = s' <;> simp [setStanza, getStanza, h]
  | cons p rest ih =>
    obtain ⟨s0, d0⟩ := p
    by_cases hp : s0 = s
    · subst hp
      by_cases hk : s0 = s'
      · simp [setStanza, getStanza, hk]
      · simp [setStanza, getStanza, hk]
    · by_cases hk : s0 = s'
      · subst hk
        have hne : ¬ s0 = s := hp
        have hne2 : ¬ s = s0 := fun h => hp h.symm
        simp [setStanza, getStanza, hne, hne2]
      · simp [setStanza, getStanza, hp, hk, ih]

/-- Value lookup after merging one section's pairs. -/
theorem getKV_mergeSection (k : String) :
    ∀ (pairs : List (String × String)) (kvs0 : List (String × String)),
      getKV (pairs.foldl
        (fun acc kv => setKV acc kv.1 (redact_sensitive_value kv.1 kv.2)) kvs0) k
      = match lastKV pairs k with
        | some v => some (redact_sensitive_value k v)
        | none => getKV kvs0 k := by
  intro pairs
  induction pairs with
  | nil => intro kvs0; rfl
  | cons p rest ih =>
    intro kvs0
    rw [List.foldl_cons, ih]
    simp only [lastKV]
    rw [lastSome_cons]
    cases hr : lastSome (fun kv => if kv.1 = k then some kv.2 else none) rest with
    | some v => rfl
    | none =>
      rw [getKV_setKV]
      by_cases hp : p.1 = k
      · rw [if_pos hp, if_pos hp, hp]
      · rw [if_neg hp, if_neg hp]

/-- Merged value of a key after folding over one file's sections. -/
theorem stanzaValue_sections (fc : FoundConf) (s k : String) :
    ∀ (secs : List (String × List (String × String)))
      (m : List (String × StanzaData)),
      stanzaValue (secs.foldl
        (fun acc sec => setStanza acc sec.1 (mergeSection fc sec.2)) m) s k
      = match lastSome (fun sec => if sec.1 = s then lastKV sec.2 k else none) secs with
        | some v => some (redact_sensitive_value k v)
        | none => stanzaValue m s k := by
  intro secs
  induction secs with
  | nil => intro m; rfl
  | cons sec rest ih =>
    intro m
    rw [List.foldl_cons, ih, lastSome_cons]
    cases hr : lastSome
        (fun sec => if sec.1 = s then lastKV sec.2 k else none) rest with
    | some v => rfl
    | none =>
      show stanzaValue (setStanza m sec.1 (mergeSection fc sec.2)) s k = _
      rw [stanzaValue, getStanza_setStanza]
      by_cases hs : sec.1 = s
      · rw [if_pos hs, if_pos hs]
        show getKV (mergeSection fc sec.2 ((getStanza m sec.1).getD emptyStanza)).kvs k
          = _
        rw [show (mergeSection fc sec.2
            ((getStanza m sec.1).getD emptyStanza)).kvs
          = sec.2.foldl (fun acc kv =>
              setKV acc kv.1 (redact_sensitive_value kv.1 kv.2))
              ((getStanza m sec.1).getD emptyStanza).kvs from rfl]
        rw [getKV_mergeSection]
        cases hlv : lastKV sec.2 k with
        | some v => rfl
        | none =>
          show getKV ((getStanza m sec.1).getD emptyStanza).kvs k
            = stanzaValue m s k
          rw [← hs, stanzaValue]
          cases getStanza m sec.1 with
          | none => rfl
          | some d => rfl
      · rw [if_neg hs, if_neg hs]
        rfl

/-- Merged value of a key after merging one whole file. -/
theorem stanzaValue_mergeFileInto (fc : FoundConf)
    (m : List (String × StanzaData)) (s k : String) :
    stanzaValue (mergeFileInto m fc) s k
      = match lastInFile fc s k with
        | some v => some (redact_sensitive_value k v)
        | none => stanzaValue m s k :=
  stanzaValue_sections fc s k fc.file.sections m

/-- The merged value of a stanza key is the redacted value from the last
file defining it. -/
theorem stanzaValue_merge (files : List FoundConf) (s k : String) :
    stanzaValue (merge_conf_layers files) s k
      = lastSome (fun fc =>
          (lastInFile fc s k).map (redact_sensitive_value k)) files := by
  have aux : ∀ (fs : List FoundConf) (m : List (String × StanzaData)),
      stanzaValue (fs.foldl mergeFileInto m) s k
      = match lastSome (fun fc =>
          (lastInFile fc s k).map (redact_sensitive_value k)) fs with
        | some v => some v
        | none => stanzaValue m s k := by
    intro fs
    induction fs with
    | nil => intro m; rfl
    | cons fc rest ih =>
      intro m
      rw [List.foldl_cons, ih, lastSome_cons]
      cases hr : lastSome (fun fc =>
          (lastInFile fc s k).map (redact_sensitive_value k)) rest with
      | some v => rfl
      | none =>
        rw [stanzaValue_mergeFileInto]
        cases hin : lastInFile fc s k with
        | some v => rfl
        | none => rfl
  rw [merge_conf_layers, aux files []]
  cases lastSome (fun fc =>
      (lastInFile fc s k).map (redact_sensitive_value k)) files with
  | some v => rfl
  | none => rfl

/-- Merged source metadata after folding over one file's sections. -/
theorem stanzaMeta_sections (fc : FoundConf) (s : String) :
    ∀ (secs : List (String × List (String × String)))
      (m : List (String × StanzaData)),
      stanzaMeta (secs.foldl
        (fun acc sec => setStanza acc sec.1 (mergeSection fc sec.2)) m) s
      = if secs.any (fun sec => sec.1 == s) then some (fc.path, fc.app)
        else stanzaMeta m s := by
  intro secs
  induction secs with
  | nil => intro m; rfl
  | cons sec rest ih =>
    intro m
    rw [List.foldl_cons, ih]
    have hmeta : stanzaMeta (setStanza m sec.1 (mergeSection fc sec.2)) s
        = if sec.1 = s then some (fc.path, fc.app) else stanzaMeta m s := by
      rw [stanzaMeta, getStanza_setStanza]
      by_cases hs : sec.1 = s
      · rw [if_pos hs, if_pos hs]
        rfl
      · rw [if_neg hs, if_neg hs]
        rfl
    by_cases hrest : rest.any (fun sec => sec.1 == s)
    · rw [if_pos hrest]
      have : (sec :: rest).any (fun sec => sec.1 == s) = true := by
        rw [List.any_cons, hrest, Bool.or_true]
      rw [if_pos this]
    · have hr : rest.any (fun sec => sec.1 == s) = false := by
        cases hx : rest.any (fun sec => sec.1 == s) with
        | false => rfl
        | true => exact absurd hx hrest
      rw [if_neg hrest, hmeta]
      by_cases hs : sec.1 = s
      · have : (sec :: rest).any (fun sec => sec.1 == s) = true := by
          rw [List.any_cons, hr, Bool.or_false]
          exact beq_iff_eq.mpr hs
        rw [if_pos hs, if_pos this]
      · have : ¬ ((sec :: rest).any (fun sec => sec.1 == s) = true) := by
          rw [List.any_cons, hr, Bool.or_false]
          intro hbe
          exact hs (beq_iff_eq.mp hbe)
        rw [if_neg hs, if_neg this]

/-- The merged source metadata comes from the last file containing the
stanza. -/
theorem stanzaMeta_merge (files : List FoundConf) (s : String) :
    stanzaMeta (merge_conf_layers files) s
      = lastSome (fun fc =>
          if fileHasSection fc s then some (fc.path, fc.app) else none) files := by
  have aux : ∀ (fs : List FoundConf) (m : List (String × StanzaData)),
      stanzaMeta (fs.foldl mergeFileInto m) s
      = match lastSome (fun fc =>
          if fileHasSection fc s then some (fc.path, fc.app) else none) fs with
        | some v => some v
        | none => stanzaMeta m s := by
    intro fs
    induction fs with
    | nil => intro m; rfl
    | cons fc rest ih =>
      intro m
      rw [List.foldl_cons, ih, lastSome_cons]
      cases hr : lastSome (fun fc =>
          if fileHasSection fc s then some (fc.path, fc.app) else none) rest with
      | some v => rfl
      | none =>
        show stanzaMeta (mergeFileInto m fc) s = _
        rw [mergeFileInto, stanzaMeta_sections]
        by_cases hh : fileHasSection fc s
        · rw [if_pos (show fc.file.sections.any (fun sec => sec.1 == s) = true from hh),
            if_pos hh]
        · have hh' : fc.file.sections.any (fun sec => sec.1 == s) = false := by
            cases hx : fc.file.sections.any (fun sec => sec.1 == s) with
            | false => rfl
            | true => exact absurd hx hh
          rw [if_neg (by rw [hh']; exact Bool.false_ne_true), if_neg hh]
  rw [merge_conf_layers, aux files []]
  cases lastSome (fun fc =>
      if fileHasSection fc s then some (fc.path, fc.app) else none) files with
  | some v => rfl
  | none => rfl

/-- Membership in an `optFound` block fixes the layer type. -/
theorem optFound_layer {path layerType : String} {app : Option String}
    {o : Option ConfFile} {fc : FoundConf} (h : fc ∈ optFound path layerType app o) :
    fc.layerType = layerType := by
  cases o with
  | none => cases h
  | some f =>
    rw [optFound] at h
    rw [List.mem_singleton.mp h]

/-- The located files split into a prefix of non-app-local layers and a
suffix of app-local layers. -/
theorem find_conf_files_split (wd : WorkDir) (name : String) :
    find_conf_files wd name
      = (optFound ("system/default/" ++ name) "system/default" none wd.systemDefault
          ++ optFound ("system/local/" ++ name) "system/local" none wd.systemLocal
          ++ wd.apps.flatMap (fun a =>
              optFound ("apps/" ++ a.name ++ "/default/" ++ name) "app/default"
                (some a.name) a.defaultConf))
        ++ wd.apps.flatMap (fun a =>
            optFound ("apps/" ++ a.name ++ "/local/" ++ name) "app/local"
              (some a.name) a.localConf)
    ∧ (∀ fc ∈ wd.apps.flatMap (fun a =>
          optFound ("apps/" ++ a.name ++ "/local/" ++ name) "app/local"
            (some a.name) a.localConf), fc.layerType = "app/local")
    ∧ (∀ fc ∈ optFound ("system/default/" ++ name) "system/default" none wd.systemDefault
          ++ optFound ("system/local/" ++ name) "system/local" none wd.systemLocal
          ++ wd.apps.flatMap (fun a =>
              optFound ("apps/" ++ a.name ++ "/default/" ++ name) "app/default"
                (some a.name) a.defaultConf),
        fc.layerType ≠ "app/local") := by
  refine ⟨?_, ?_, ?_⟩
  · rw [find_conf_files]
  · intro fc hfc
    obtain ⟨a, -, hmem⟩ := List.mem_flatMap.mp hfc
    exact optFound_layer hmem
  · intro fc hfc
    rcases List.mem_append.mp hfc with hfc1 | hfc2
    · rcases List.mem_append.mp hfc1 with hfc3 | hfc4
      · rw [optFound_layer hfc3]
        decide
      · rw [optFound_layer hfc4]
        decide
    · obtain ⟨a, -, hmem⟩ := List.mem_flatMap.mp hfc2
      rw [optFound_layer hmem]
      decide

/-- A file that defines a key of stanza `s` contains a section named `s`. -/
theorem fileHasSection_of_lastInFile {fc : FoundConf} {s k : String}
    (h : lastInFile fc s k ≠ none) : fileHasSection fc s = true := by
  cases hin : lastInFile fc s k with
  | none => exact absurd hin h
  | some v =>
    obtain ⟨sec, hsec, hfsec⟩ := lastSome_eq_some_mem hin
    rw [fileHasSection, List.any_eq_true]
    refine ⟨sec, hsec, ?_⟩
    by_cases hs : sec.1 = s
    · exact beq_iff_eq.mpr hs
    · rw [if_neg hs] at hfsec
      cases hfsec

/-- C4 (amended): when a stanza key is defined at all four precedence
layers, the merged value is the redacted value from an `apps/*/local`
file (the last one, in visiting order, that defines the key), and the
stanza's `_source_file`/`_source_app` metadata point to an `apps/*/local`
file (the last one containing the stanza — not necessarily the same file
the value came from), whatever the order in which app directories are
visited. -/
theorem c4_precedence_law (wd : WorkDir) (name s k : String)
    (_h1 : ∃ fc ∈ find_conf_files wd name,
      fc.layerType = "system/default" ∧ lastInFile fc s k ≠ none)
    (_h2 : ∃ fc ∈ find_conf_files wd name,
      fc.layerType = "system/local" ∧ lastInFile fc s k ≠ none)
    (_h3 : ∃ fc ∈ find_conf_files wd name,
      fc.layerType = "app/default" ∧ lastInFile fc s k ≠ none)
    (h4 : ∃ fc ∈ find_conf_files wd name,
      fc.layerType = "app/local" ∧ lastInFile fc s k ≠ none) :
    (∃ fc ∈ find_conf_files wd name, fc.layerType = "app/local"
      ∧ ∃ v, lastInFile fc s k = some v
        ∧ stanzaValue (merge_conf_layers (find_conf_files wd name)) s k
          = some (redact_sensitive_value k v))
    ∧ (∃ fc ∈ find_conf_files wd name, fc.layerType = "app/local"
        ∧ fileHasSection fc s = true
        ∧ stanzaMeta (merge_conf_layers (find_conf_files wd name)) s
          = some (fc.path, fc.app)) := by
  obtain ⟨hsplit, hloc, hpre⟩ := find_conf_files_split wd name
  obtain ⟨fc0, hfc0, hlayer0, hdef0⟩ := h4
  have hfc0loc : fc0 ∈ wd.apps.flatMap (fun a =>
      optFound ("apps/" ++ a.name ++ "/local/" ++ name) "app/local"
        (some a.name) a.localConf) := by
    rw [hsplit] at hfc0
    rcases List.mem_append.mp hfc0 with hfp | hfl
    · exact absurd hlayer0 (hpre fc0 hfp)
    · exact hfl
  constructor
  · -- the merged value comes from an app/local file
    obtain ⟨v0, hv0⟩ : ∃ v0, lastInFile fc0 s k = some v0 := by
      cases hin : lastInFile fc0 s k with
      | none => exact absurd hin hdef0
      | some v => exact ⟨v, rfl⟩
    have hf0 : (fun fc => (lastInFile fc s k).map (redact_sensitive_value k)) fc0
        = some (redact_sensitive_value k v0) := by
      show (lastInFile fc0 s k).map (redact_sensitive_value k) = _
      rw [hv0]
      rfl
    obtain ⟨w, hw⟩ := @lastSome_isSome_of_mem FoundConf String
      (fun fc => (lastInFile fc s k).map (redact_sensitive_value k)) _ fc0
      (redact_sensitive_value k v0) hfc0loc hf0
    obtain ⟨fcv, hfcv, hfcvw⟩ := lastSome_eq_some_mem hw
    obtain ⟨v, hv, hvw⟩ := Option.map_eq_some'.mp hfcvw
    refine ⟨fcv, ?_, hloc fcv hfcv, v, hv, ?_⟩
    · rw [hsplit]
      exact List.mem_append.mpr (Or.inr hfcv)
    · rw [stanzaValue_merge, hsplit, lastSome_append, hw, hvw]
  · -- the merged metadata comes from an app/local file
    have hhas0 : (fun fc =>
        if fileHasSection fc s then some (fc.path, fc.app) else none) fc0
        = some (fc0.path, fc0.app) := by
      show (if fileHasSection fc0 s then some (fc0.path, fc0.app) else none) = _
      rw [if_pos (fileHasSection_of_lastInFile hdef0)]
    obtain ⟨w, hw⟩ := @lastSome_isSome_of_mem FoundConf (String × Option String)
      (fun fc => if fileHasSection fc s then some (fc.path, fc.app) else none)
      _ fc0 (fc0.path, fc0.app) hfc0loc hhas0
    obtain ⟨fcm, hfcm, hfcmw⟩ := lastSome_eq_some_mem hw
    have hfcmhas : fileHasSection fcm s = true ∧ w = (fcm.path, fcm.app) := by
      by_cases hh : fileHasSection fcm s
      · rw [if_pos hh] at hfcmw
        exact ⟨hh, (Option.some_inj.mp hfcmw).symm⟩
      · rw [if_neg hh] at hfcmw
        cases hfcmw
    refine ⟨fcm, ?_, hloc fcm hfcm, hfcmhas.1, ?_⟩
    · rw [hsplit]
      exact List.mem_append.mpr (Or.inr hfcm)
    · rw [stanzaMeta_merge, hsplit, lastSome_append, hw, hfcmhas.2]

/-- Work directory for the C4 counterexample: the key `k` of stanza `st`
is defined at all four layers (through app `appa`), while app `appb`'s
local file contains the stanza without the key. -/
def c4wd : WorkDir :=
  { systemDefault := some { sections := [("st", [("k", "v0")])] },
    systemLocal := some { sections := [("st", [("k", "v1")])] },
    apps := [
      { name := "appa",
        defaultConf := some { sections := [("st", [("k", "v2")])] },
        localConf := some { sections := [("st", [("k", "va")])] } },
      { name := "appb", defaultConf := none,
        localConf := some { sections := [("st", [("other", "x")])] } }] }

/-- C4 counterexample: the merged value of `k` is `"va"`, defined only in
`apps/appa/local`, yet `_source_file`/`_source_app` point to
`apps/appb/local` — the last file containing the stanza, which does not
define the key — so the metadata does not point to the file the value
came from. -/
theorem c4_counterexample :
    stanzaValue (merge_conf_layers (find_conf_files c4wd "inputs.conf")) "st" "k"
      = some "va"
    ∧ ((find_conf_files c4wd "inputs.conf").all (fun fc =>
        !(lastInFile fc "st" "k" == some "va")
          || (fc.path == "apps/appa/local/inputs.conf"))) = true
    ∧ stanzaMeta (merge_conf_layers (find_conf_files c4wd "inputs.conf")) "st"
      = some ("apps/appb/local/inputs.conf", some "appb")
    ∧ ("apps/appb/local/inputs.conf" : String) ≠ "apps/appa/local/inputs.conf" :=
  ⟨by decide, by decide, by decide, by decide⟩

/-- Work directory for the C4 witness: one app defines the key at both
app layers. -/
def c4wdW : WorkDir :=
  { systemDefault := some { sections := [("st", [("k", "v0")])] },
    systemLocal := some { sections := [("st", [("k", "v1")])] },
    apps := [
      { name := "appa",
        defaultConf := some { sections := [("st", [("k", "v2")])] },
        localConf := some { sections := [("st", [("k", "va")])] } }] }

/-- C4 witness: the precedence law applied to `c4wdW`. -/
theorem c4_precedence_law_witness :
    (∃ fc ∈ find_conf_files c4wdW "inputs.conf",
      fc.layerType = "app/local" ∧ lastInFile fc "st" "k" ≠ none)
    ∧ (∃ fc ∈ find_conf_files c4wdW "inputs.conf", fc.layerType = "app/local"
        ∧ ∃ v, lastInFile fc "st" "k" = some v
          ∧ stanzaValue (merge_conf_layers (find_conf_files c4wdW "inputs.conf"))
              "st" "k" = some (redact_sensitive_value "k" v)) :=
  ⟨by decide,
   (c4_precedence_law c4wdW "inputs.conf" "st" "k" (by decide) (by decide)
     (by decide) (by decide)).1⟩

/-! ## Claim C1 — the dangling-output scenario -/

/-- The unknown-destination edge the resolver synthesizes for one
non-disabled input when there are no output targets (the no-outputs
branch of `build_edges_from_inputs_outputs`). -/
def unkEdgeFor (parsed : ParsedConfig) (srcHost : Host) (i : InputStanza) : Edge :=
  { src_host := srcHost.id, dst_host := "unknown_destination",
    protocol := "splunktcp", path_kind := (determine_protocol_and_path_kind i).2,
    sources := if i.stanza_name ≠ "" then [i.stanza_name] else [],
    sourcetypes := if optTruthy i.sourcetype then [i.sourcetype.getD ""] else [],
    indexes := (apply_transforms_to_index i parsed.props parsed.transforms).1,
    filters := (apply_transforms_to_index i parsed.props parsed.transforms).2.1,
    drop_rules := (apply_transforms_to_index i parsed.props parsed.transforms).2.2,
    tls := none, weight := 1,
    app_contexts := if optTruthy i.source_app then [i.source_app.getD ""] else [],
    confidence := "derived" }

/-- A `flatMap` of if-guarded singletons is a filtered map. -/
theorem flatMap_if_single {α β} (l : List α) (p : α → Bool) (f : α → β) :
    (l.flatMap (fun a => if p a then [] else [f a]))
      = (l.filter (fun a => !(p a))).map f := by
  induction l with
  | nil => rfl
  | cons a t ih =>
    by_cases h : p a <;>
      simp [List.flatMap_cons, List.filter_cons, h, ih]

/-- With no output groups, the resolver builds exactly the
unknown-destination edge of each non-disabled input. -/
theorem build_edges_no_outputs (parsed : ParsedConfig) (srcHost : Host)
    (hout : parsed.outputs = []) :
    build_edges_from_inputs_outputs parsed srcHost
      = (parsed.inputs.filter (fun i => !i.disabled)).map
          (unkEdgeFor parsed srcHost) := by
  have h1 : build_edges_from_inputs_outputs parsed srcHost
      = parsed.inputs.flatMap (fun i =>
          if i.disabled then [] else [unkEdgeFor parsed srcHost i]) := by
    rw [build_edges_from_inputs_outputs, hout]
    rfl
  rw [h1]
  exact flatMap_if_single parsed.inputs (fun i => i.disabled)
    (unkEdgeFor parsed srcHost)

/-- The unknown-destination edge key is injective in its path-kind
component. -/
theorem unkKey_inj (s : String) :
    Function.Injective
      (fun p : String => ((s, "unknown_destination", "splunktcp", p) : EdgeKey)) := by
  intro a b h
  exact congrArg (fun k : EdgeKey => k.2.2.2) h

/-- Merging preserves the unknown-destination edge shape: destination,
null TLS and derived confidence survive `merge_similar_edges`. -/
theorem merge_unknown_props {edges : List Edge}
    (h : ∀ e ∈ edges, e.dst_host = "unknown_destination" ∧ e.tls = none
      ∧ e.confidence = "derived") :
    ∀ e ∈ merge_similar_edges edges,
      e.dst_host = "unknown_destination" ∧ e.tls = none
        ∧ e.confidence = "derived" := by
  intro e he
  obtain ⟨k, hk, rfl⟩ := mem_merge_similar_edges he
  obtain ⟨e0, he0, hke⟩ := List.mem_map.mp hk
  rcases mergedFor_cases edges k with ⟨e1, hg, hm⟩ | hm
  · rw [hm]
    exact h e1 (mem_of_groupOf_singleton hg)
  · rw [hm]
    refine ⟨?_, ?_, ?_⟩
    · show k.2.1 = "unknown_destination"
      rw [← hke]
      exact (h e0 he0).1
    · show mergeTls ((groupOf edges k).filterMap Edge.tls) = none
      have hnil : (groupOf edges k).filterMap Edge.tls = [] := by
        rw [List.filterMap_eq_nil_iff]
        intro a ha
        exact (h a (List.mem_filter.mp ha).1).2.1
      rw [hnil]
      rfl
    · exact (mergeGroup_confidence_iff k (groupOf edges k)).mpr
        ⟨e0, mem_groupOf_of_key he0 hke, (h e0 he0).2.2⟩

/-- A `flatMap` whose blocks are all singletons preserves length. -/
theorem length_flatMap_one {α β} (l : List α) (f : α → List β)
    (h : ∀ a ∈ l, (f a).length = 1) : (l.flatMap f).length = l.length := by
  induction l with
  | nil => rfl
  | cons a t ih =>
    rw [List.flatMap_cons, List.length_append, h a (List.mem_cons_self a t),
      ih (fun b hb => h b (List.mem_cons_of_mem a hb)), List.length_cons]
    omega

/-- Membership in an if-guarded singleton determines the element. -/
theorem mem_ite_singleton {α} {c : Prop} [Decidable c] {x a : α}
    (h : a ∈ (if c then [x] else [])) : a = x := by
  by_cases hc : c
  · rw [if_pos hc] at h
    exact List.mem_singleton.mp h
  · rw [if_neg hc] at h
    exact absurd h (List.not_mem_nil a)

/-- Every dangling-output finding carries the fixed code and severity. -/
theorem dangling_code_severity {hosts : List Host} {edges : List Edge}
    {f : Finding} (hf : f ∈ detect_dangling_outputs hosts edges) :
    f.code = "DANGLING_OUTPUT" ∧ f.severity = "error" := by
  rw [detect_dangling_outputs] at hf
  obtain ⟨e, -, hfe⟩ := List.mem_flatMap.mp hf
  rw [danglingPerEdge] at hfe
  rw [mem_ite_singleton hfe]
  exact ⟨rfl, rfl⟩

/-- Every unknown-index finding carries the fixed code and severity. -/
theorem unknown_code_severity {edges : List Edge} {known : List String}
    {f : Finding} (hf : f ∈ detect_unknown_indexes edges known) :
    f.code = "UNKNOWN_INDEX" ∧ f.severity = "warning" := by
  rw [detect_unknown_indexes] at hf
  obtain ⟨e, -, hfe⟩ := List.mem_flatMap.mp hf
  rw [unknownPerEdge] at hfe
  obtain ⟨idx, -, hidx⟩ := List.mem_filterMap.mp hfe
  by_cases hc : known.contains idx = true
  · rw [if_pos hc] at hidx
    exact Option.noConfusion hidx
  · rw [if_neg hc] at hidx
    injection hidx with h2
    rw [← h2]
    exact ⟨rfl, rfl⟩

/-- Every unsecured-pipe finding carries the fixed code and severity. -/
theorem unsecured_code_severity {edges : List Edge} {f : Finding}
    (hf : f ∈ detect_unsecured_pipes edges) :
    f.code = "UNSECURED_PIPE" ∧ f.severity = "warning" := by
  rw [detect_unsecured_pipes] at hf
  obtain ⟨e, -, hfe⟩ := List.mem_flatMap.mp hf
  rw [unsecuredPerEdge] at hfe
  rw [mem_ite_singleton hfe]
  exact ⟨rfl, rfl⟩

/-- Every drop-path finding carries the fixed code and severity. -/
theorem drop_code_severity {edges : List Edge} {f : Finding}
    (hf : f ∈ detect_drop_paths edges) :
    f.code = "DROP_PATH" ∧ f.severity = "info" := by
  rw [detect_drop_paths] at hf
  obtain ⟨e, -, hfe⟩ := List.mem_flatMap.mp hf
  rw [dropPerEdge] at hfe
  rw [mem_ite_singleton hfe]
  exact ⟨rfl, rfl⟩

/-- Every ambiguous-group finding carries the fixed code and severity. -/
theorem ambiguous_code_severity {edges : List Edge} {f : Finding}
    (hf : f ∈ detect_ambiguous_groups edges) :
    f.code = "AMBIGUOUS_GROUP" ∧ f.severity = "warning" := by
  rw [detect_ambiguous_groups] at hf
  obtain ⟨e, -, hfe⟩ := List.mem_flatMap.mp hf
  rw [ambiguousPerEdge] at hfe
  rw [mem_ite_singleton hfe]
  exact ⟨rfl, rfl⟩

/-- When every edge points at a non-empty placeholder destination, the
dangling-output rule fires exactly once per edge. -/
theorem dangling_count {hosts : List Host} {edges : List Edge}
    (h : ∀ e ∈ edges, e.dst_host ≠ ""
      ∧ (get_placeholder_host_ids hosts).contains e.dst_host = true) :
    (detect_dangling_outputs hosts edges).length = edges.length := by
  rw [detect_dangling_outputs]
  refine length_flatMap_one _ _ ?_
  intro e he
  have hc : (e.dst_host ≠ ""
      && (get_placeholder_host_ids hosts).contains e.dst_host) = true := by
    rw [Bool.and_eq_true]
    exact ⟨decide_eq_true (h e he).1, (h e he).2⟩
  rw [danglingPerEdge, if_pos hc]
  rfl

/-- With an empty known-index set, the unknown-index rule fires exactly
once per index per edge. -/
theorem unknown_count_all {edges : List Edge} :
    (detect_unknown_indexes edges []).length
      = (edges.map (fun e => e.indexes.length)).sum := by
  rw [detect_unknown_indexes, List.length_flatMap]
  congr 1
  refine List.map_congr_left ?_
  intro e _
  show (unknownPerEdge [] e).length = e.indexes.length
  have h0 : ∀ a ∈ e.indexes, (!(List.contains ([] : List String) a)) = true :=
    fun a _ => rfl
  rw [unknownPerEdge, filterMapIf_length, List.filter_eq_self.mpr h0]

/-- Accumulator law behind `collect_known_indexes`: when every
destination is a placeholder, the fold never extends the accumulator. -/
theorem collect_known_aux (pids : List String) :
    ∀ (edges : List Edge), (∀ e ∈ edges, pids.contains e.dst_host = true) →
      ∀ acc : List String,
        edges.foldl (fun acc e =>
          if e.dst_host ≠ "" && ¬ pids.contains e.dst_host then acc ++ e.indexes
          else acc) acc = acc := by
  intro edges
  induction edges with
  | nil => intro _ acc; rfl
  | cons a t ih =>
    intro h acc
    have hni : ¬ ((a.dst_host ≠ "" && ¬ pids.contains a.dst_host) = true) := by
      intro hcontra
      rw [Bool.and_eq_true] at hcontra
      have h2 := hcontra.2
      rw [decide_eq_true_eq] at h2
      exact h2 (h a (List.mem_cons_self a t))
    rw [List.foldl_cons, if_neg hni]
    exact ih (fun e he => h e (List.mem_cons_of_mem a he)) acc

/-- When every destination is a placeholder, the known-index set is
empty. -/
theorem collect_known_indexes_nil {edges : List Edge} {pids : List String}
    (h : ∀ e ∈ edges, pids.contains e.dst_host = true) :
    collect_known_indexes edges pids = [] := by
  rw [collect_known_indexes]
  exact collect_known_aux pids edges h []

/-- A non-empty-id placeholder host contributes its id to the
placeholder-id set. -/
theorem mem_placeholder_ids {hosts : List Host} {h : Host}
    (hh : h ∈ hosts) (hp : is_placeholder_host h = true) (hne : h.id ≠ "") :
    h.id ∈ get_placeholder_host_ids hosts := by
  have hc : (is_placeholder_host h && h.id ≠ "") = true := by
    simp [hp, hne]
  rw [get_placeholder_host_ids]
  exact List.mem_filterMap.mpr ⟨h, hh, by rw [if_pos hc]⟩

/-- Filtering findings by the code they all carry keeps them all. -/
theorem filter_code_self {l : List Finding} {c : String}
    (h : ∀ f ∈ l, f.code = c) :
    l.filter (fun f => f.code == c) = l :=
  List.filter_eq_self.mpr (fun f hf => by
    rw [h f hf]
    exact beq_self_eq_true c)

/-- Filtering findings by a code none of them carries drops them all. -/
theorem filter_code_nil {l : List Finding} {c' : String} (c : String)
    (h : ∀ f ∈ l, f.code = c') (hne : c' ≠ c) :
    l.filter (fun f => f.code == c) = [] :=
  List.filter_eq_nil_iff.mpr (fun f hf => by
    rw [h f hf]
    simp [hne])

/-- `validate_graph` on a graph with at least one host runs the five
rules in order. -/
theorem validate_graph_cons (h0 : Host) (hs : List Host) (edges : List Edge)
    (m : GraphMeta) :
    validate_graph ⟨h0 :: hs, edges, m⟩
      = detect_dangling_outputs (h0 :: hs) edges
        ++ detect_unknown_indexes edges
            (collect_known_indexes edges (get_placeholder_host_ids (h0 :: hs)))
        ++ detect_unsecured_pipes edges
        ++ detect_drop_paths edges
        ++ detect_ambiguous_groups edges := rfl

/-- The validator on a graph whose edges all point at the
unknown-destination placeholder: one dangling finding per edge (all of
severity error) and one unknown-index finding per index per edge. -/
theorem validator_on_unknown_graph (h0 : Host) (hs : List Host)
    (edges : List Edge) (m : GraphMeta)
    (hA : ∀ e ∈ edges, e.dst_host = "unknown_destination" ∧ e.tls = none
      ∧ e.confidence = "derived")
    (hu : "unknown_destination" ∈ get_placeholder_host_ids (h0 :: hs)) :
    ((validate_graph ⟨h0 :: hs, edges, m⟩).filter
        (fun f => f.code == "DANGLING_OUTPUT")).length = edges.length
    ∧ (∀ f ∈ validate_graph ⟨h0 :: hs, edges, m⟩,
        f.code = "DANGLING_OUTPUT" → f.severity = "error")
    ∧ ((validate_graph ⟨h0 :: hs, edges, m⟩).filter
        (fun f => f.code == "UNKNOWN_INDEX")).length
      = (edges.map (fun e => e.indexes.length)).sum := by
  have hpids : ∀ e ∈ edges,
      (get_placeholder_host_ids (h0 :: hs)).contains e.dst_host = true := by
    intro e he
    rw [(hA e he).1]
    exact contains_eq_mem.mpr hu
  have hdne : ∀ e ∈ edges, e.dst_host ≠ "" := by
    intro e he
    rw [(hA e he).1]
    decide
  have hknown : collect_known_indexes edges
      (get_placeholder_host_ids (h0 :: hs)) = [] :=
    collect_known_indexes_nil hpids
  have hd : (detect_dangling_outputs (h0 :: hs) edges).length = edges.length :=
    dangling_count (fun e he => ⟨hdne e he, hpids e he⟩)
  have hc1 : ∀ f ∈ detect_dangling_outputs (h0 :: hs) edges,
      f.code = "DANGLING_OUTPUT" := fun f hf => (dangling_code_severity hf).1
  have hc2 : ∀ f ∈ detect_unknown_indexes edges
      (collect_known_indexes edges (get_placeholder_host_ids (h0 :: hs))),
      f.code = "UNKNOWN_INDEX" := fun f hf => (unknown_code_severity hf).1
  have hc2n : ∀ f ∈ detect_unknown_indexes edges [],
      f.code = "UNKNOWN_INDEX" := fun f hf => (unknown_code_severity hf).1
  have hc3 : ∀ f ∈ detect_unsecured_pipes edges,
      f.code = "UNSECURED_PIPE" := fun f hf => (unsecured_code_severity hf).1
  have hc4 : ∀ f ∈ detect_drop_paths edges,
      f.code = "DROP_PATH" := fun f hf => (drop_code_severity hf).1
  have hc5 : ∀ f ∈ detect_ambiguous_groups edges,
      f.code = "AMBIGUOUS_GROUP" := fun f hf => (ambiguous_code_severity hf).1
  refine ⟨?_, ?_, ?_⟩
  · rw [validate_graph_cons]
    simp only [List.filter_append, List.length_append]
    rw [filter_code_self hc1, filter_code_nil "DANGLING_OUTPUT" hc2 (by decide),
      filter_code_nil "DANGLING_OUTPUT" hc3 (by decide),
      filter_code_nil "DANGLING_OUTPUT" hc4 (by decide),
      filter_code_nil "DANGLING_OUTPUT" hc5 (by decide), hd]
    simp
  · intro f hf hcode
    rw [validate_graph_cons] at hf
    simp only [List.mem_append] at hf
    rcases hf with ((((h1 | h2) | h3) | h4) | h5)
    · exact (dangling_code_severity h1).2
    · rw [(unknown_code_severity h2).1] at hcode
      exact absurd hcode (by decide)
    · rw [(unsecured_code_severity h3).1] at hcode
      exact absurd hcode (by decide)
    · rw [(drop_code_severity h4).1] at hcode
      exact absurd hcode (by decide)
    · rw [(ambiguous_code_severity h5).1] at hcode
      exact absurd hcode (by decide)
  · rw [validate_graph_cons, hknown]
    simp only [List.filter_append, List.length_append]
    rw [filter_code_nil "UNKNOWN_INDEX" hc1 (by decide),
      filter_code_self hc2n,
      filter_code_nil "UNKNOWN_INDEX" hc3 (by decide),
      filter_code_nil "UNKNOWN_INDEX" hc4 (by decide),
      filter_code_nil "UNKNOWN_INDEX" hc5 (by decide),
      unknown_count_all]
    simp

/-- Concrete dangling-output scenario for C1: two enabled monitor
inputs, no `outputs.conf` content at all. -/
def c1parsed : ParsedConfig :=
  { inputs := [{ stanza_name := "monitor:///var/log/a.log", input_type := "monitor" },
               { stanza_name := "monitor:///var/log/b.log", input_type := "monitor" }],
    outputs := [] }

/-- C1 counterexample: with two enabled inputs and no outputs the graph
has ONE merged unknown-destination edge, not one edge per input, and
validating it yields ONE `UNKNOWN_INDEX` finding for that edge's index
`"main"`, not zero (the known-index set is empty because the only
destination is the placeholder), alongside the one `DANGLING_OUTPUT`
finding. -/
theorem c1_counterexample :
    c1parsed.inputs.length = 2
    ∧ (c1parsed.inputs.filter (fun i => !i.disabled)).length = 2
    ∧ (build_canonical_graph "t" c1parsed).toOption.map (fun g =>
        (g.edges.length,
         ((validate_graph g).filter (fun f => f.code == "DANGLING_OUTPUT")).length,
         ((validate_graph g).filter (fun f => f.code == "UNKNOWN_INDEX")).length,
         (validate_graph g).map (fun f => (f.code, f.severity, f.ctxIndex))))
      = some (1, 1, 1,
          [("DANGLING_OUTPUT", "error", none),
           ("UNKNOWN_INDEX", "warning", some "main"),
           ("UNSECURED_PIPE", "warning", none),
           ("AMBIGUOUS_GROUP", "warning", none)]) :=
  ⟨rfl, by rfl, by rfl⟩

/-- C1 (amended): for a `ParsedConfig` with at least one non-disabled
input and no output groups, `build_canonical_graph` succeeds; every
produced edge has `dst_host = "unknown_destination"`, `tls = none` and
`confidence = "derived"`; the number of edges is the number of DISTINCT
path kinds among the non-disabled inputs (edges are merged, not one per
input); validation yields exactly one `DANGLING_OUTPUT` finding per edge,
all of severity `"error"`, and exactly one `UNKNOWN_INDEX` finding per
index per edge (not zero): the known-index set is empty because the only
destination is the placeholder. -/
theorem c1_dangling_scenario (now : String) (parsed : ParsedConfig)
    (hout : parsed.outputs = [])
    (hin : parsed.inputs.filter (fun i => !i.disabled) ≠ []) :
    (∃ g, build_canonical_graph now parsed = Except.ok g)
    ∧ ∀ g, build_canonical_graph now parsed = Except.ok g →
        (∀ e ∈ g.edges, e.dst_host = "unknown_destination"
          ∧ e.tls = none ∧ e.confidence = "derived")
        ∧ g.edges.length
            = (firstDedup ((parsed.inputs.filter (fun i => !i.disabled)).map
                (fun i => (determine_protocol_and_path_kind i).2))).length
        ∧ ((validate_graph g).filter
            (fun f => f.code == "DANGLING_OUTPUT")).length = g.edges.length
        ∧ (∀ f ∈ validate_graph g, f.code = "DANGLING_OUTPUT" →
            f.severity = "error")
        ∧ ((validate_graph g).filter
            (fun f => f.code == "UNKNOWN_INDEX")).length
            = (g.edges.map (fun e => e.indexes.length)).sum := by
  have hinne : parsed.inputs ≠ [] := by
    intro h0
    rw [h0] at hin
    exact hin rfl
  have hie : parsed.inputs.isEmpty = false := by
    cases hi : parsed.inputs with
    | nil => exact absurd hi hinne
    | cons a t => rfl
  have hni : ¬ ((parsed.inputs.isEmpty && parsed.outputs.isEmpty) = true) := by
    intro hcontra
    rw [hie] at hcontra
    simp at hcontra
  have hkey : ∀ e ∈ build_edges_from_inputs_outputs parsed (build_host parsed),
      e.dst_host = "unknown_destination" ∧ e.tls = none
        ∧ e.confidence = "derived" := by
    intro e he
    rw [build_edges_no_outputs parsed (build_host parsed) hout] at he
    obtain ⟨i, -, rfl⟩ := List.mem_map.mp he
    exact ⟨rfl, rfl, rfl⟩
  have hA := merge_unknown_props hkey
  have hklist : (build_edges_from_inputs_outputs parsed (build_host parsed)).map
        edgeKey
      = ((parsed.inputs.filter (fun i => !i.disabled)).map
            (fun i => (determine_protocol_and_path_kind i).2)).map
          (fun p => (((build_host parsed).id, "unknown_destination",
            "splunktcp", p) : EdgeKey)) := by
    rw [build_edges_no_outputs parsed (build_host parsed) hout,
      List.map_map, List.map_map]
    rfl
  have hlen : (merge_similar_edges
        (build_edges_from_inputs_outputs parsed (build_host parsed))).length
      = (firstDedup ((parsed.inputs.filter (fun i => !i.disabled)).map
          (fun i => (determine_protocol_and_path_kind i).2))).length := by
    rw [merge_similar_edges, List.length_map, hklist,
      firstDedup_map_inj (unkKey_inj (build_host parsed).id), List.length_map]
  have hu : "unknown_destination" ∈ get_placeholder_host_ids
      (build_host parsed :: create_placeholder_hosts
        (merge_similar_edges
          (build_edges_from_inputs_outputs parsed (build_host parsed)))
        [(build_host parsed).id]) := by
    by_cases hid : (build_host parsed).id = "unknown_destination"
    · have hp : is_placeholder_host (build_host parsed) = true := by
        simp [is_placeholder_host, hid]
      have hm := mem_placeholder_ids
        (List.mem_cons_self (build_host parsed)
          (create_placeholder_hosts
            (merge_similar_edges
              (build_edges_from_inputs_outputs parsed (build_host parsed)))
            [(build_host parsed).id]))
        hp (by rw [hid]; decide)
      rw [← hid]
      exact hm
    · obtain ⟨i0, hi0⟩ := List.exists_mem_of_ne_nil _ hin
      have hei0 : unkEdgeFor parsed (build_host parsed) i0
          ∈ build_edges_from_inputs_outputs parsed (build_host parsed) := by
        rw [build_edges_no_outputs parsed (build_host parsed) hout]
        exact List.mem_map_of_mem _ hi0
      have hmem0 : mergedFor
            (build_edges_from_inputs_outputs parsed (build_host parsed))
            (edgeKey (unkEdgeFor parsed (build_host parsed) i0))
          ∈ merge_similar_edges
            (build_edges_from_inputs_outputs parsed (build_host parsed)) := by
        rw [merge_similar_edges]
        exact List.mem_map_of_mem _
          (mem_firstDedup.mpr (List.mem_map_of_mem edgeKey hei0))
      have hdst0 : (mergedFor
            (build_edges_from_inputs_outputs parsed (build_host parsed))
            (edgeKey (unkEdgeFor parsed (build_host parsed) i0))).dst_host
          = "unknown_destination" := (hA _ hmem0).1
      have hmd : "unknown_destination"
          ∈ (merge_similar_edges
              (build_edges_from_inputs_outputs parsed (build_host parsed))).map
            Edge.dst_host := by
        rw [← hdst0]
        exact List.mem_map_of_mem Edge.dst_host hmem0
      have hfil : "unknown_destination"
          ∈ ((merge_similar_edges
                (build_edges_from_inputs_outputs parsed (build_host parsed))).map
              Edge.dst_host).filter
            (fun d => ¬ ([(build_host parsed).id].contains d)) := by
        refine List.mem_filter.mpr ⟨hmd, ?_⟩
        simp only [decide_eq_true_eq]
        rw [contains_eq_mem]
        intro hmem
        exact hid (List.mem_singleton.mp hmem).symm
      have hph : placeholderFor "unknown_destination"
          ∈ create_placeholder_hosts
            (merge_similar_edges
              (build_edges_from_inputs_outputs parsed (build_host parsed)))
            [(build_host parsed).id] := by
        rw [create_placeholder_hosts]
        exact List.mem_map_of_mem placeholderFor (mem_firstDedup.mpr hfil)
      have hidu : (placeholderFor "unknown_destination").id
          = "unknown_destination" := by decide
      have hm := mem_placeholder_ids
        (List.mem_cons_of_mem (build_host parsed) hph)
        (by decide) (by rw [hidu]; decide)
      rw [hidu] at hm
      exact hm
  constructor
  · refine ⟨⟨build_host parsed :: create_placeholder_hosts
        (merge_similar_edges
          (build_edges_from_inputs_outputs parsed (build_host parsed)))
        [(build_host parsed).id],
      merge_similar_edges
        (build_edges_from_inputs_outputs parsed (build_host parsed)),
      build_graph_metadata now parsed
        (build_host parsed :: create_placeholder_hosts
          (merge_similar_edges
            (build_edges_from_inputs_outputs parsed (build_host parsed)))
          [(build_host parsed).id])
        (merge_similar_edges
          (build_edges_from_inputs_outputs parsed (build_host parsed)))⟩, ?_⟩
    rw [build_canonical_graph, if_neg hni]
    rfl
  · intro g hg
    rw [build_canonical_graph, if_neg hni] at hg
    have hgg : g = ⟨build_host parsed :: create_placeholder_hosts
          (merge_similar_edges
            (build_edges_from_inputs_outputs parsed (build_host parsed)))
          [(build_host parsed).id],
        merge_similar_edges
          (build_edges_from_inputs_outputs parsed (build_host parsed)),
        build_graph_metadata now parsed
          (build_host parsed :: create_placeholder_hosts
            (merge_similar_edges
              (build_edges_from_inputs_outputs parsed (build_host parsed)))
            [(build_host parsed).id])
          (merge_similar_edges
            (build_edges_from_inputs_outputs parsed (build_host parsed)))⟩ := by
      cases hg
      rfl
    subst hgg
    have hval := validator_on_unknown_graph (build_host parsed)
      (create_placeholder_hosts
        (merge_similar_edges
          (build_edges_from_inputs_outputs parsed (build_host parsed)))
        [(build_host parsed).id])
      (merge_similar_edges
        (build_edges_from_inputs_outputs parsed (build_host parsed)))
      (build_graph_metadata now parsed
        (build_host parsed :: create_placeholder_hosts
          (merge_similar_edges
            (build_edges_from_inputs_outputs parsed (build_host parsed)))
          [(build_host parsed).id])
        (merge_similar_edges
          (build_edges_from_inputs_outputs parsed (build_host parsed))))
      hA hu
    exact ⟨hA, hlen, hval.1, hval.2.1, hval.2.2⟩

/-- C1 witness: the amended theorem applied to the concrete two-input,
no-outputs configuration. -/
theorem c1_dangling_scenario_witness :
    c1parsed.outputs = []
    ∧ c1parsed.inputs.filter (fun i => !i.disabled) ≠ []
    ∧ ∃ g, build_canonical_graph "t" c1parsed = Except.ok g :=
  ⟨rfl, by decide, (c1_dangling_scenario "t" c1parsed rfl (by decide)).1⟩

end Autodoc
